import Mathlib

/-!
Player-response extraction of the `youtube` package

A shallow embedding of `video.go` and `subtitles_list.go`:

* `isVideoDownloadable`, the playability classifier;
* `extractDataFromPlayerResponse`, the metadata extractor, with the format
  catalogue sorted by `sort.SliceStable` under `SortBitrateDesc`;
* `parseSubtitles`, the subtitle table builder, and `GetSubtitleLink`;
* `extractDataFromPlayerResponseShared`, the extractor again with the backing
  array of the response's `formats` slice as explicit state, for what a call
  leaves in the caller's response.

A method with a pointer receiver `v *Video` becomes a function that takes the
Video and returns the Video after the call together with the returned `error`
(`none` is Go's `nil` error).  A run-time panic (index out of range) is the
outer `none` of an `Option`.
-/

namespace Youtube

/-! ## Data model -/

/-- Modelled from the spec: the `Format` record is declared outside `video.go`.
Section 3 of the spec gives it an itag, a bitrate, a quality label and
pass-through fields; `video.go` reads `Bitrate` only. -/
structure Format where
  ItagNo : Int := 0
  URL : String := ""
  Quality : String := ""
  QualityLabel : String := ""
  Bitrate : Int := 0
deriving DecidableEq, Repr, Inhabited

/-- Modelled from the spec: `FormatList` is declared outside `video.go`; it is a
slice of `Format`. -/
abbrev FormatList := List Format

/-- Modelled from the spec: one entry of `thumbnail.thumbnails[]`, section 6:
url, width, height. -/
structure Thumbnail where
  URL : String := ""
  Width : Nat := 0
  Height : Nat := 0
deriving DecidableEq, Repr, Inhabited

/-- Modelled from the spec: `Thumbnails` is declared outside `video.go`; it is a
slice of `Thumbnail`. -/
abbrev Thumbnails := List Thumbnail

/-- The record `SubtitlesNode` of `subtitles_list.go`. -/
structure SubtitlesNode where
  LanguageCode : String := ""
  Ext : String := ""
  Url : String := ""
deriving DecidableEq, Repr, Inhabited

/-- The type `Subtitles` of `subtitles_list.go`, `map[string][]SubtitlesNode`: a
list of bindings with pairwise distinct keys, in order of first insertion. The
source never ranges over the map, so the order is not observable; only
`Subtitles.get`, `Subtitles.lookup` and `Subtitles.keys` read it. -/
abbrev Subtitles := List (String × List SubtitlesNode)

/-- The two-result map read `nodes, ok := s[k]`; `none` is `ok == false`. -/
def Subtitles.lookup (s : Subtitles) (k : String) : Option (List SubtitlesNode) :=
  match s with
  | [] => none
  | (k', ns) :: rest => if k' = k then some ns else Subtitles.lookup rest k

/-- The map read `s[k]`: the zero value (a nil slice) when `k` is not a key. -/
def Subtitles.get (s : Subtitles) (k : String) : List SubtitlesNode :=
  (Subtitles.lookup s k).getD []

/-- The map write `s[k] = ns`. -/
def Subtitles.set (s : Subtitles) (k : String) (ns : List SubtitlesNode) : Subtitles :=
  match s with
  | [] => [(k, ns)]
  | (k', ns') :: rest =>
    if k' = k then (k', ns) :: rest else (k', ns') :: Subtitles.set rest k ns

/-- The keys of the map. -/
def Subtitles.keys (s : Subtitles) : List String := s.map Prod.fst

/-- A calendar day: what `time.Parse` with the layout `2006-01-02` yields is
midnight UTC of that day. -/
structure Time where
  Year : Nat := 1
  Month : Nat := 1
  Day : Nat := 1
deriving DecidableEq, Repr, Inhabited

/-- The struct `Video` of `video.go`. `Duration` is a `time.Duration`, a signed
64-bit count of nanoseconds. `Subtitles` is `none` for the nil map. -/
structure Video where
  ID : String := ""
  Title : String := ""
  Description : String := ""
  Author : String := ""
  Duration : Int := 0
  PublishDate : Time := {}
  Formats : FormatList := []
  Thumbnails : Thumbnails := []
  Subtitles : Option Subtitles := none
  DASHManifestURL : String := ""
  HLSManifestURL : String := ""
deriving DecidableEq, Repr, Inhabited

/-- Modelled from the spec: `playabilityStatus` of section 6. -/
structure PlayabilityStatus where
  Status : String := ""
  Reason : String := ""
  PlayableInEmbed : Bool := false
deriving DecidableEq, Repr, Inhabited

/-- Modelled from the spec: `videoDetails` of section 6 (the thumbnail list is
`videoDetails.thumbnail.thumbnails`). -/
structure VideoDetails where
  Title : String := ""
  ShortDescription : String := ""
  Author : String := ""
  Thumbnails : Thumbnails := []
deriving DecidableEq, Repr, Inhabited

/-- Modelled from the spec: `microformat.playerMicroformatRenderer` of section 6. -/
structure PlayerMicroformatRenderer where
  LengthSeconds : String := ""
  PublishDate : String := ""
deriving DecidableEq, Repr, Inhabited

/-- Modelled from the spec: `streamingData` of section 6. -/
structure StreamingData where
  Formats : FormatList := []
  AdaptiveFormats : FormatList := []
  HlsManifestURL : String := ""
  DashManifestURL : String := ""
deriving DecidableEq, Repr, Inhabited

/-- Modelled from the spec: one entry of `captionTracks[]`, section 6. -/
structure CaptionTrack where
  BaseUrl : String := ""
  LanguageCode : String := ""
deriving DecidableEq, Repr, Inhabited

/-- Modelled from the spec: one entry of `translationLanguages[]`, section 6. -/
structure TranslationLanguage where
  LanguageCode : String := ""
deriving DecidableEq, Repr, Inhabited

/-- Modelled from the spec: `captions.playerCaptionsTracklistRenderer` of
section 6. -/
structure PlayerCaptionsTracklistRenderer where
  CaptionTracks : List CaptionTrack := []
  TranslationLanguages : List TranslationLanguage := []
deriving DecidableEq, Repr, Inhabited

/-- Modelled from the spec: the decoded player response `playerResponseData`,
declared outside `video.go`, with the paths of section 6. -/
structure PlayerResponseData where
  PlayabilityStatus : PlayabilityStatus := {}
  VideoDetails : VideoDetails := {}
  Microformat : PlayerMicroformatRenderer := {}
  StreamingData : StreamingData := {}
  Captions : PlayerCaptionsTracklistRenderer := {}
deriving DecidableEq, Repr, Inhabited

/-- Go's `error` values that `video.go` returns. The three sentinels and
`ErrPlayabiltyStatus` are declared outside `video.go`; `errorString` is the
value of `errors.New`. -/
inductive Error where
  | ErrVideoPrivate
  | ErrLoginRequired
  | ErrNotPlayableInEmbed
  | ErrPlayabiltyStatus (Status : String) (Reason : String)
  | errorString (msg : String)
deriving DecidableEq, Repr, Inhabited

/-! ## Library routines used by `video.go` -/

/-- Go's `strings.HasPrefix(s, p)`. -/
def stringsHasPrefix (s p : String) : Bool := p.data.isPrefixOf s.data

/-- Go's `strconv.ParseUint(s, 10, 64)` loop over the bytes of `s`, started
with the accumulator `n`: `none` is a syntax error, `some (n, false)` a value,
`some (2^64 - 1, true)` a range error. The range error is returned at the
digit where it occurs, before the rest of the string is looked at. -/
def parseUintLoop : List Char → Nat → Option (Nat × Bool)
  | [], n => some (n, false)
  | c :: cs, n =>
    if c.isDigit then
      if n ≥ (2 ^ 64 - 1) / 10 + 1 then some (2 ^ 64 - 1, true)
      else if n * 10 + (c.toNat - 48) > 2 ^ 64 - 1 then some (2 ^ 64 - 1, true)
      else parseUintLoop cs (n * 10 + (c.toNat - 48))
    else none

/-- Go's `strconv.ParseUint(s, 10, 64)`: the empty string is a syntax error. -/
def parseUint (s : List Char) : Option (Nat × Bool) :=
  match s with
  | [] => none
  | _ => parseUintLoop s 0

/-- Go's `strconv.ParseInt(s, 10, 0)` with 64-bit `int`, value only: `0` on a
syntax error, the nearest bound on a range error. -/
def parseInt (s : List Char) : Int :=
  match s with
  | [] => 0
  | c :: cs =>
    let neg := decide (c = '-')
    let body := if c = '+' ∨ c = '-' then cs else c :: cs
    match parseUint body with
    | none => 0
    | some (un, _) =>
      if !neg && decide (un ≥ 2 ^ 63) then 2 ^ 63 - 1
      else if neg && decide (un > 2 ^ 63) then -(2 ^ 63)
      else if neg then -(un : Int) else (un : Int)

/-- The fast path of Go's `strconv.Atoi`, the digit loop `n = n*10 + int(ch)`:
`none` is a syntax error. -/
def atoiFastLoop : List Char → Int → Option Int
  | [], n => some n
  | c :: cs, n => if c.isDigit then atoiFastLoop cs (n * 10 + (c.toNat - 48 : Nat)) else none

/-- Go's `strconv.Atoi(s)` on a 64-bit platform, value only: the caller writes
`seconds, _ := strconv.Atoi(...)` and drops the error. Strings of 1 to 18 bytes
take the fast path, the others `ParseInt`. -/
def strconvAtoi (s : String) : Int :=
  if 0 < s.utf8ByteSize ∧ s.utf8ByteSize < 19 then
    match s.data with
    | [] => 0
    | c :: cs =>
      let body := if c = '-' ∨ c = '+' then cs else c :: cs
      if body.length < 1 then 0
      else
        match atoiFastLoop body 0 with
        | none => 0
        | some n => if c = '-' then -n else n
  else parseInt s.data

/-- The number a string of decimal digits denotes. Used to state what
`strconvAtoi` returns. -/
def digitsValue (ds : List Char) : Nat :=
  ds.foldl (fun n c => n * 10 + (c.toNat - 48)) 0

/-- A string without its leading sign, if it has one. Used to state what
`strconvAtoi` returns. -/
def stripSign : List Char → List Char
  | [] => []
  | c :: cs => if c = '+' ∨ c = '-' then cs else c :: cs

/-- Conversion to Go's `int64`: two's complement wrap-around. -/
def wrapInt64 (x : Int) : Int := (x + 2 ^ 63) % 2 ^ 64 - 2 ^ 63

/-- Go's `time.Second`, in nanoseconds. -/
def timeSecond : Int := 1000000000

/-- Number of days of a month, Go's `daysIn`. -/
def daysIn (month year : Nat) : Nat :=
  if month = 2 then
    if year % 4 = 0 ∧ (year % 100 ≠ 0 ∨ year % 400 = 0) then 29 else 28
  else if month = 4 ∨ month = 6 ∨ month = 9 ∨ month = 11 then 30
  else 31

/-- Value of a run of decimal digits, `none` when a character is not a digit. -/
def digitsVal : List Char → Nat → Option Nat
  | [], n => some n
  | c :: cs, n => if c.isDigit then digitsVal cs (n * 10 + (c.toNat - 48)) else none

/-- Go's `time.Parse(dateFormat, str)` for `dateFormat = "2006-01-02"`, value
only: the caller writes `v.PublishDate, _ = time.Parse(...)`, so a parse error
stores the zero `Time`. Four year digits, `-`, two month digits in 1..12, `-`,
two day digits within the month, and nothing after. -/
def timeParse (str : String) : Time :=
  match str.data with
  | [y1, y2, y3, y4, '-', m1, m2, '-', d1, d2] =>
    match digitsVal [y1, y2, y3, y4] 0, digitsVal [m1, m2] 0, digitsVal [d1, d2] 0 with
    | some y, some m, some d =>
      if m = 0 ∨ 12 < m then {}
      else if d < 1 ∨ d > daysIn m y then {}
      else { Year := y, Month := m, Day := d }
    | _, _, _ => {}
  | _ => {}

/-- Go's `data.Swap(i, j)` on a slice; `none` is the index-out-of-range panic. -/
def swapAt {α : Type} (data : List α) (i j : Nat) : Option (List α) :=
  match data[i]?, data[j]? with
  | some x, some y => some ((data.set i y).set j x)
  | _, _ => none

/-- The inner loop of Go's `insertionSort_func`,
`for j := i; j > a && data.Less(j, j-1); j-- { data.Swap(j, j-1) }` with
`a = 0`, entered with `j`. `less` reads the slice as it is at the call. -/
def insertionInner {α : Type} (less : List α → Nat → Nat → Option Bool) :
    Nat → List α → Option (List α)
  | 0, data => some data
  | j + 1, data =>
    match less data (j + 1) j with
    | none => none
    | some false => some data
    | some true =>
      match swapAt data (j + 1) j with
      | none => none
      | some data1 => insertionInner less j data1

/-- The outer loop of Go's `insertionSort_func`, `for i := a + 1; i < b; i++`,
over the remaining values of `i`. -/
def insertionOuter {α : Type} (less : List α → Nat → Nat → Option Bool) :
    List Nat → List α → Option (List α)
  | [], data => some data
  | i :: is, data =>
    match insertionInner less i data with
    | none => none
    | some data1 => insertionOuter less is data1

/-- Go's `sort.SliceStable(x, less)`, a library routine: a stable sort of the
slice under the index comparator `less`, which reads the slice being sorted.
Modelled by the library's own insertion sort `insertionSort_func(data, 0, n)`,
which is what it runs on slices of up to 20 elements; on longer slices the
library merges insertion-sorted blocks, and a stable sort under a strict weak
order has one result. `none` is a panic raised by `less`. -/
def sortSliceStable {α : Type} (x : List α) (less : List α → Nat → Nat → Option Bool) :
    Option (List α) :=
  insertionOuter less (List.range' 1 (x.length - 1)) x

/-! ## The sort, told on elements

Used to state what `sortSliceStable` computes. -/

/-- An index comparator that reads two elements of the slice and compares them
with `lessE`: the shape of `SortBitrateDesc` and `SortBitrateAsc`. -/
def indexLess {α : Type} (lessE : α → α → Bool) (data : List α) (i j : Nat) : Option Bool :=
  match data[i]?, data[j]? with
  | some x, some y => some (lessE x y)
  | _, _ => none

/-- What one run of the inner insertion loop does to the sorted part of the
slice, told on elements: `x` moves down past every element it is less than.
The sorted part is held in reverse, last element first. -/
def insertRev {α : Type} (lessE : α → α → Bool) (x : α) : List α → List α
  | [] => [x]
  | y :: ys => if lessE x y then y :: insertRev lessE x ys else x :: y :: ys

/-- What the insertion sort computes, told on elements: the elements are
inserted one after the other, in slice order. -/
def insertAll {α : Type} (lessE : α → α → Bool) (x : List α) : List α :=
  (x.foldl (fun acc y => insertRev lessE y acc) []).reverse

/-! ## The playability classifier -/

/-- The method `isVideoDownloadable` of `video.go`. It does not touch the Video;
`none` is the `nil` error. -/
def isVideoDownloadable (prData : PlayerResponseData) (isVideoPage : Bool) : Option Error :=
  if prData.PlayabilityStatus.Status = "OK" then
    none
  else if prData.PlayabilityStatus.Status = "LOGIN_REQUIRED" then
    if stringsHasPrefix prData.PlayabilityStatus.Reason "This video is private" then
      some Error.ErrVideoPrivate
    else
      some Error.ErrLoginRequired
  else if !isVideoPage && !prData.PlayabilityStatus.PlayableInEmbed then
    some Error.ErrNotPlayableInEmbed
  else
    some (Error.ErrPlayabiltyStatus prData.PlayabilityStatus.Status
      prData.PlayabilityStatus.Reason)

/-- The method `isVideoFromInfoDownloadable` of `video.go`. -/
def isVideoFromInfoDownloadable (prData : PlayerResponseData) : Option Error :=
  isVideoDownloadable prData false

/-- The method `isVideoFromPageDownloadable` of `video.go`. -/
def isVideoFromPageDownloadable (prData : PlayerResponseData) : Option Error :=
  isVideoDownloadable prData true

/-! ## The format catalogue comparators -/

/-- The method `SortBitrateDesc` of `video.go`:
`v.Formats[i].Bitrate > v.Formats[j].Bitrate`; `none` is the index-out-of-range
panic. -/
def SortBitrateDesc (v : Video) (i j : Nat) : Option Bool :=
  match v.Formats[i]?, v.Formats[j]? with
  | some fi, some fj => some (decide (fi.Bitrate > fj.Bitrate))
  | _, _ => none

/-- The method `SortBitrateAsc` of `video.go`:
`v.Formats[i].Bitrate < v.Formats[j].Bitrate`; `none` is the index-out-of-range
panic. -/
def SortBitrateAsc (v : Video) (i j : Nat) : Option Bool :=
  match v.Formats[i]?, v.Formats[j]? with
  | some fi, some fj => some (decide (fi.Bitrate < fj.Bitrate))
  | _, _ => none

/-! ## The subtitle table builder -/

/-- The extension tags `[]string{"srv1", "srv2", "srv3", "ttml", "vtt"}` of
`parseSubtitles`. -/
def subtitleExts : List String := ["srv1", "srv2", "srv3", "ttml", "vtt"]

/-- The inner loop of the first loop of `parseSubtitles`, for one caption track:
`v.Subtitles[code] = append(v.Subtitles[code], SubtitlesNode{Ext, Url})` for each
tag. The node's `LanguageCode` is not set. -/
def captionTrackNodes (baseUrl : String) (s : Subtitles) (captionTrack : CaptionTrack) :
    Subtitles :=
  subtitleExts.foldl (fun m ext =>
    Subtitles.set m captionTrack.LanguageCode
      (Subtitles.get m captionTrack.LanguageCode ++
        [{ Ext := ext, Url := baseUrl ++ "&fmt=" ++ ext }])) s

/-- The body of the second loop of `parseSubtitles`, for one translation
language: skipped when the language already has nodes. -/
def translationNodes (baseUrl : String) (s : Subtitles) (language : TranslationLanguage) :
    Subtitles :=
  if (Subtitles.get s language.LanguageCode).length > 0 then s
  else
    subtitleExts.foldl (fun m ext =>
      Subtitles.set m language.LanguageCode
        (Subtitles.get m language.LanguageCode ++
          [{ Ext := ext,
             Url := baseUrl ++ "&fmt=" ++ ext ++ "&tlang=" ++ language.LanguageCode }])) s

/-- The method `parseSubtitles` of `video.go`. -/
def parseSubtitles (v : Video) (prData : PlayerResponseData) : Video × Option Error :=
  let v0 := { v with Subtitles := some [] }
  match prData.Captions.CaptionTracks with
  | [] => (v0, none)
  | first :: _ =>
    let baseUrl := first.BaseUrl
    let s1 := prData.Captions.CaptionTracks.foldl (captionTrackNodes baseUrl) []
    if baseUrl = "" then ({ v with Subtitles := some s1 }, none)
    else
      let s2 := prData.Captions.TranslationLanguages.foldl (translationNodes baseUrl) s1
      ({ v with Subtitles := some s2 }, none)

/-- The method `GetSubtitleLink` of `subtitles_list.go`. -/
def GetSubtitleLink (s : Subtitles) (languageCode : String) : String :=
  match Subtitles.lookup s languageCode with
  | none => ""
  | some subtitlesNodes =>
    match subtitlesNodes with
    | [] => ""
    | node :: _ => node.Url

/-- The map read `v.Subtitles[k]` on a Video; a nil map reads as empty. -/
def Video.subtitlesAt (v : Video) (k : String) : List SubtitlesNode :=
  match v.Subtitles with
  | none => []
  | some s => Subtitles.get s k

/-- The keys of `v.Subtitles`; a nil map has none. -/
def Video.subtitleKeys (v : Video) : List String :=
  match v.Subtitles with
  | none => []
  | some s => Subtitles.keys s

/-- The bindings of `v.Subtitles`, each a key with its node list; a nil map has
none. -/
def Video.subtitleBindings (v : Video) : List (String × List SubtitlesNode) :=
  match v.Subtitles with
  | none => []
  | some s => s

/-! ## The metadata extractor -/

/-- The method `extractDataFromPlayerResponse` of `video.go`. The outer `none`
is a run-time panic; otherwise the Video after the call and the returned
error. The response is read as a value here, which tells what one call
returns; what the call writes into the response's own backing array is told by
`extractDataFromPlayerResponseShared`. -/
def extractDataFromPlayerResponse (v : Video) (prData : PlayerResponseData) :
    Option (Video × Option Error) :=
  let seconds := strconvAtoi prData.Microformat.LengthSeconds
  let str := prData.Microformat.PublishDate
  let v1 : Video := { v with
    Title := prData.VideoDetails.Title
    Description := prData.VideoDetails.ShortDescription
    Author := prData.VideoDetails.Author
    Thumbnails := prData.VideoDetails.Thumbnails
    Duration := if seconds > 0 then wrapInt64 (seconds * timeSecond) else v.Duration
    PublishDate := if str ≠ "" then timeParse str else v.PublishDate
    Formats := prData.StreamingData.Formats ++ prData.StreamingData.AdaptiveFormats }
  if v1.Formats.length = 0 then
    some (v1, some (Error.errorString "no formats found in the server's answer"))
  else
    match sortSliceStable v1.Formats (fun fs i j => SortBitrateDesc { v1 with Formats := fs } i j) with
    | none => none
    | some sorted =>
      parseSubtitles
        { v1 with
          Formats := sorted
          HLSManifestURL := prData.StreamingData.HlsManifestURL
          DASHManifestURL := prData.StreamingData.DashManifestURL }
        prData

/-- The part of `parseVideoInfo` after `json.Unmarshal` has decoded the body
into `prData`. -/
def parseVideoInfo (v : Video) (prData : PlayerResponseData) : Option (Video × Option Error) :=
  match isVideoFromInfoDownloadable prData with
  | some err => some (v, some err)
  | none => extractDataFromPlayerResponse v prData

/-- The part of `parseVideoPage` after the page has been matched and
`json.Unmarshal` has decoded the match into `prData`. -/
def parseVideoPage (v : Video) (prData : PlayerResponseData) : Option (Video × Option Error) :=
  match isVideoFromPageDownloadable prData with
  | some err => some (v, some err)
  | none => extractDataFromPlayerResponse v prData

/-! ## The extractor and the backing array of the response

`prData` is passed by value, but the slice `prData.StreamingData.Formats` still
points to the caller's backing array. `append` writes into that array when it
has room, and `sort.SliceStable` then sorts it in place. -/

/-- A Go slice of formats together with the rest of its backing array: `elems`
are its `len` elements, `spare` the `cap - len` slots that follow them. -/
structure FormatSlice where
  elems : FormatList := []
  spare : FormatList := []
deriving DecidableEq, Repr, Inhabited

/-- Go's `append(s, xs...)`. When `len(s) + len(xs) <= cap(s)` the elements are
written into the spare slots of the array of `s` and the result shares that
array (`true`); otherwise a new array is allocated and the array of `s` is left
alone (`false`; the spare slots of the new array are not read by anything
here). -/
def appendFormats (s : FormatSlice) (xs : FormatList) : FormatSlice × Bool :=
  if xs.length ≤ s.spare.length then
    ({ elems := s.elems ++ xs, spare := s.spare.drop xs.length }, true)
  else
    ({ elems := s.elems ++ xs, spare := [] }, false)

/-- What a call of `extractDataFromPlayerResponse` leaves behind: the Video, the
returned error, and the caller's response as it reads after the call, with the
spare slots of the backing array of its `formats` slice. -/
structure ExtractOutcome where
  video : Video := {}
  err : Option Error := none
  response : PlayerResponseData := {}
  spare : FormatList := []
deriving DecidableEq, Repr, Inhabited

/-- The method `extractDataFromPlayerResponse` of `video.go`, with the backing
array of `prData.StreamingData.Formats` as explicit state: `spare` holds the
slots of that array after the slice's elements. When `append` has written the
adaptive formats into the array, the in-place sort leaves the first
`len(formats)` sorted elements in the caller's slice and the other sorted
elements in the slots after it. The adaptive formats are in an array of their
own. The outer `none` is a run-time panic. -/
def extractDataFromPlayerResponseShared (v : Video) (prData : PlayerResponseData)
    (spare : FormatList) : Option ExtractOutcome :=
  let seconds := strconvAtoi prData.Microformat.LengthSeconds
  let str := prData.Microformat.PublishDate
  let appended := appendFormats { elems := prData.StreamingData.Formats, spare := spare }
    prData.StreamingData.AdaptiveFormats
  let v1 : Video := { v with
    Title := prData.VideoDetails.Title
    Description := prData.VideoDetails.ShortDescription
    Author := prData.VideoDetails.Author
    Thumbnails := prData.VideoDetails.Thumbnails
    Duration := if seconds > 0 then wrapInt64 (seconds * timeSecond) else v.Duration
    PublishDate := if str ≠ "" then timeParse str else v.PublishDate
    Formats := appended.1.elems }
  if v1.Formats.length = 0 then
    some { video := v1
           err := some (Error.errorString "no formats found in the server's answer")
           response := prData
           spare := spare }
  else
    match sortSliceStable v1.Formats (fun fs i j => SortBitrateDesc { v1 with Formats := fs } i j) with
    | none => none
    | some sorted =>
      let r := parseSubtitles
        { v1 with
          Formats := sorted
          HLSManifestURL := prData.StreamingData.HlsManifestURL
          DASHManifestURL := prData.StreamingData.DashManifestURL }
        prData
      some { video := r.1
             err := r.2
             response :=
               if appended.2 then
                 { prData with StreamingData := { prData.StreamingData with
                     Formats := sorted.take prData.StreamingData.Formats.length } }
               else prData
             spare :=
               if appended.2 then
                 sorted.drop prData.StreamingData.Formats.length ++ appended.1.spare
               else spare }

/-! ## Properties of the playability classifier -/

/-- Go's `strings.HasPrefix s p` holds exactly when `s` is `p` followed by some rest. -/
theorem stringsHasPrefix_iff (s p : String) :
    stringsHasPrefix s p = true ↔ ∃ rest : String, s = p ++ rest := by
  unfold stringsHasPrefix
  rw [List.isPrefixOf_iff_prefix]
  constructor
  · rintro ⟨t, ht⟩
    refine ⟨⟨t⟩, ?_⟩
    apply String.ext
    rw [String.data_append, ht]
  · rintro ⟨rest, rfl⟩
    exact ⟨rest.data, by rw [String.data_append]⟩

/-- C3: for every response and both values of `isVideoPage`, `isVideoDownloadable`
returns no error if and only if the status is exactly the string `"OK"`. -/
theorem isVideoDownloadable_nil_iff_ok (prData : PlayerResponseData) (isVideoPage : Bool) :
    isVideoDownloadable prData isVideoPage = none ↔ prData.PlayabilityStatus.Status = "OK" := by
  unfold isVideoDownloadable
  constructor
  · intro h
    by_contra hne
    rw [if_neg hne] at h
    split_ifs at h
  · intro h
    rw [if_pos h]

/-- C4: for status `"LOGIN_REQUIRED"`, whatever `playableInEmbed` and `isVideoPage`
are, `isVideoDownloadable` returns `ErrVideoPrivate` when the reason begins with
`"This video is private"` and `ErrLoginRequired` for every other reason. -/
theorem isVideoDownloadable_login_required (prData : PlayerResponseData) (isVideoPage : Bool)
    (hstatus : prData.PlayabilityStatus.Status = "LOGIN_REQUIRED") :
    ((∃ rest : String, prData.PlayabilityStatus.Reason = "This video is private" ++ rest) →
        isVideoDownloadable prData isVideoPage = some Error.ErrVideoPrivate) ∧
      ((¬ ∃ rest : String, prData.PlayabilityStatus.Reason = "This video is private" ++ rest) →
        isVideoDownloadable prData isVideoPage = some Error.ErrLoginRequired) := by
  have hne : ¬ prData.PlayabilityStatus.Status = "OK" := by rw [hstatus]; decide
  unfold isVideoDownloadable
  rw [if_neg hne, if_pos hstatus]
  constructor
  · intro h
    rw [if_pos ((stringsHasPrefix_iff _ _).2 h)]
  · intro h
    rw [if_neg (fun hp => h ((stringsHasPrefix_iff _ _).1 hp))]

/-- Witness of C4: a private video and an age-restricted one, on both paths. -/
theorem isVideoDownloadable_login_required_witness :
    isVideoDownloadable
        { PlayabilityStatus := { Status := "LOGIN_REQUIRED", Reason := "This video is private." } }
        false = some Error.ErrVideoPrivate ∧
      isVideoDownloadable
        { PlayabilityStatus := { Status := "LOGIN_REQUIRED", Reason := "Sign in to confirm your age",
                                 PlayableInEmbed := true } }
        true = some Error.ErrLoginRequired :=
  ⟨(isVideoDownloadable_login_required _ false rfl).1 ⟨".", by decide⟩,
   (isVideoDownloadable_login_required _ true rfl).2
     (fun h => absurd ((stringsHasPrefix_iff _ _).2 h) (by decide))⟩

/-- C5, as stated, fails: with status `"ERROR"` on the info path
(`isVideoPage = false`) and `playableInEmbed = false` the result is
`ErrNotPlayableInEmbed`, not an `ErrPlayabiltyStatus`. -/
theorem isVideoDownloadable_error_status_counterexample :
    isVideoDownloadable
        { PlayabilityStatus := { Status := "ERROR", Reason := "Video unavailable",
                                 PlayableInEmbed := false } }
        false = some Error.ErrNotPlayableInEmbed ∧
      isVideoDownloadable
        { PlayabilityStatus := { Status := "ERROR", Reason := "Video unavailable",
                                 PlayableInEmbed := false } }
        false ≠ some (Error.ErrPlayabiltyStatus "ERROR" "Video unavailable") := by
  decide

/-- C5, amended: for status `"ERROR"` and every reason, `isVideoDownloadable`
returns the `ErrPlayabiltyStatus` with Status `"ERROR"` and the input reason
verbatim whenever `isVideoPage` is true or `playableInEmbed` is true; when both
are false it returns `ErrNotPlayableInEmbed`. -/
theorem isVideoDownloadable_error_status (prData : PlayerResponseData) (isVideoPage : Bool)
    (hstatus : prData.PlayabilityStatus.Status = "ERROR") :
    ((isVideoPage = true ∨ prData.PlayabilityStatus.PlayableInEmbed = true) →
        isVideoDownloadable prData isVideoPage =
          some (Error.ErrPlayabiltyStatus "ERROR" prData.PlayabilityStatus.Reason)) ∧
      ((isVideoPage = false ∧ prData.PlayabilityStatus.PlayableInEmbed = false) →
        isVideoDownloadable prData isVideoPage = some Error.ErrNotPlayableInEmbed) := by
  have h1 : ¬ prData.PlayabilityStatus.Status = "OK" := by rw [hstatus]; decide
  have h2 : ¬ prData.PlayabilityStatus.Status = "LOGIN_REQUIRED" := by rw [hstatus]; decide
  unfold isVideoDownloadable
  rw [if_neg h1, if_neg h2, hstatus]
  constructor
  · rintro (h | h) <;> simp [h]
  · rintro ⟨hp, he⟩
    simp [hp, he]

/-- Witness of C5, amended: status `"ERROR"` on the page path, on the info path
with an embeddable video, and on the info path with a video that is not. -/
theorem isVideoDownloadable_error_status_witness :
    isVideoDownloadable
        { PlayabilityStatus := { Status := "ERROR", Reason := "Video unavailable" } } true =
        some (Error.ErrPlayabiltyStatus "ERROR" "Video unavailable") ∧
      isVideoDownloadable
        { PlayabilityStatus := { Status := "ERROR", Reason := "Video unavailable",
                                 PlayableInEmbed := true } } false =
        some (Error.ErrPlayabiltyStatus "ERROR" "Video unavailable") ∧
      isVideoDownloadable
        { PlayabilityStatus := { Status := "ERROR", Reason := "Video unavailable" } } false =
        some Error.ErrNotPlayableInEmbed :=
  ⟨(isVideoDownloadable_error_status _ true rfl).1 (Or.inl rfl),
   (isVideoDownloadable_error_status _ false rfl).1 (Or.inr rfl),
   (isVideoDownloadable_error_status _ false rfl).2 ⟨rfl, rfl⟩⟩

/-- C6, as stated, fails: on the info path with `playableInEmbed = false`, status
`"OK"` gives no error and status `"LOGIN_REQUIRED"` gives `ErrLoginRequired`. -/
theorem isVideoDownloadable_not_embeddable_counterexample :
    isVideoDownloadable
        { PlayabilityStatus := { Status := "OK", Reason := "", PlayableInEmbed := false } }
        false = none ∧
      isVideoDownloadable
        { PlayabilityStatus := { Status := "LOGIN_REQUIRED", Reason := "",
                                 PlayableInEmbed := false } }
        false = some Error.ErrLoginRequired := by
  decide

/-- C6, amended: for every status and reason, when `isVideoPage` is false and
`playableInEmbed` is false, `isVideoDownloadable` returns `ErrNotPlayableInEmbed`
if and only if the status is neither `"OK"` nor `"LOGIN_REQUIRED"`. -/
theorem isVideoDownloadable_not_embeddable_iff (prData : PlayerResponseData)
    (hembed : prData.PlayabilityStatus.PlayableInEmbed = false) :
    isVideoDownloadable prData false = some Error.ErrNotPlayableInEmbed ↔
      (prData.PlayabilityStatus.Status ≠ "OK" ∧
        prData.PlayabilityStatus.Status ≠ "LOGIN_REQUIRED") := by
  unfold isVideoDownloadable
  constructor
  · intro h
    refine ⟨fun hok => ?_, fun hlogin => ?_⟩
    · rw [if_pos hok] at h
      exact absurd h (by decide)
    · have hne : ¬ prData.PlayabilityStatus.Status = "OK" := by rw [hlogin]; decide
      rw [if_neg hne, if_pos hlogin] at h
      split_ifs at h <;> exact absurd h (by decide)
  · rintro ⟨h1, h2⟩
    rw [if_neg h1, if_neg h2]
    simp [hembed]

/-- Witness of C6, amended: status `"UNPLAYABLE"` is refused as not embeddable,
status `"OK"` is not. -/
theorem isVideoDownloadable_not_embeddable_iff_witness :
    isVideoDownloadable { PlayabilityStatus := { Status := "UNPLAYABLE" } } false =
        some Error.ErrNotPlayableInEmbed ∧
      isVideoDownloadable { PlayabilityStatus := { Status := "OK" } } false ≠
        some Error.ErrNotPlayableInEmbed :=
  ⟨(isVideoDownloadable_not_embeddable_iff _ rfl).2 ⟨by decide, by decide⟩,
   fun h => ((isVideoDownloadable_not_embeddable_iff _ rfl).1 h).1 rfl⟩

/-- C7: for every status other than `"OK"` and `"LOGIN_REQUIRED"` and every
reason, `isVideoDownloadable` with `isVideoPage = false` and
`playableInEmbed = false` returns `ErrNotPlayableInEmbed`. -/
theorem isVideoDownloadable_other_status_not_embeddable (prData : PlayerResponseData)
    (hok : prData.PlayabilityStatus.Status ≠ "OK")
    (hlogin : prData.PlayabilityStatus.Status ≠ "LOGIN_REQUIRED")
    (hembed : prData.PlayabilityStatus.PlayableInEmbed = false) :
    isVideoDownloadable prData false = some Error.ErrNotPlayableInEmbed := by
  unfold isVideoDownloadable
  rw [if_neg hok, if_neg hlogin]
  simp [hembed]

/-- Witness of C7: status `"UNPLAYABLE"` on the info path, not embeddable. -/
theorem isVideoDownloadable_other_status_not_embeddable_witness :
    isVideoDownloadable
        { PlayabilityStatus := { Status := "UNPLAYABLE", Reason := "Video unavailable",
                                 PlayableInEmbed := false } }
        false = some Error.ErrNotPlayableInEmbed :=
  isVideoDownloadable_other_status_not_embeddable _ (by decide) (by decide) rfl

/-! ## Properties of the subtitle table -/

theorem Subtitles.lookup_set_self (s : Subtitles) (k : String) (ns : List SubtitlesNode) :
    Subtitles.lookup (Subtitles.set s k ns) k = some ns := by
  induction s with
  | nil => simp [Subtitles.set, Subtitles.lookup]
  | cons p rest ih =>
    obtain ⟨k', ns'⟩ := p
    by_cases h : k' = k
    · simp [Subtitles.set, Subtitles.lookup, h]
    · simp [Subtitles.set, Subtitles.lookup, h, ih]

theorem Subtitles.lookup_set_ne (s : Subtitles) (k k1 : String) (ns : List SubtitlesNode)
    (hne : k1 ≠ k) :
    Subtitles.lookup (Subtitles.set s k ns) k1 = Subtitles.lookup s k1 := by
  induction s with
  | nil =>
    have h : ¬ k = k1 := fun h => hne h.symm
    simp [Subtitles.set, Subtitles.lookup, h]
  | cons p rest ih =>
    obtain ⟨k', ns'⟩ := p
    by_cases h : k' = k
    · have h1 : ¬ k = k1 := fun h => hne h.symm
      simp [Subtitles.set, Subtitles.lookup, h, h1]
    · by_cases h2 : k' = k1
      · subst h2
        simp [Subtitles.set, Subtitles.lookup, h]
      · simp [Subtitles.set, Subtitles.lookup, h, h2, ih]

theorem Subtitles.get_set_self (s : Subtitles) (k : String) (ns : List SubtitlesNode) :
    Subtitles.get (Subtitles.set s k ns) k = ns := by
  simp [Subtitles.get, Subtitles.lookup_set_self]

theorem Subtitles.get_set_ne (s : Subtitles) (k k1 : String) (ns : List SubtitlesNode)
    (hne : k1 ≠ k) :
    Subtitles.get (Subtitles.set s k ns) k1 = Subtitles.get s k1 := by
  simp [Subtitles.get, Subtitles.lookup_set_ne s k k1 ns hne]

/-- The append loop over the extension tags extends the bucket of its key by one
node per tag, in order. -/
theorem appendLoop_get_self (mk : String → SubtitlesNode) (code : String) (exts : List String)
    (s : Subtitles) :
    Subtitles.get
        (exts.foldl (fun m ext => Subtitles.set m code (Subtitles.get m code ++ [mk ext])) s)
        code = Subtitles.get s code ++ exts.map mk := by
  induction exts generalizing s with
  | nil => simp
  | cons e es ih =>
    rw [List.foldl_cons, ih, Subtitles.get_set_self]
    simp

/-- The append loop over the extension tags leaves every other bucket as it was. -/
theorem appendLoop_get_ne (mk : String → SubtitlesNode) (code k : String) (exts : List String)
    (s : Subtitles) (hne : k ≠ code) :
    Subtitles.get
        (exts.foldl (fun m ext => Subtitles.set m code (Subtitles.get m code ++ [mk ext])) s)
        k = Subtitles.get s k := by
  induction exts generalizing s with
  | nil => simp
  | cons e es ih =>
    rw [List.foldl_cons, ih, Subtitles.get_set_ne _ _ _ _ hne]

/-- The five nodes one caption track adds to its bucket. -/
theorem captionTrackNodes_get_self (b : String) (s : Subtitles) (t : CaptionTrack) :
    Subtitles.get (captionTrackNodes b s t) t.LanguageCode =
      Subtitles.get s t.LanguageCode ++
        [{ Ext := "srv1", Url := b ++ "&fmt=srv1" }, { Ext := "srv2", Url := b ++ "&fmt=srv2" },
         { Ext := "srv3", Url := b ++ "&fmt=srv3" }, { Ext := "ttml", Url := b ++ "&fmt=ttml" },
         { Ext := "vtt", Url := b ++ "&fmt=vtt" }] := by
  unfold captionTrackNodes
  rw [appendLoop_get_self (fun ext => { Ext := ext, Url := b ++ "&fmt=" ++ ext })]
  simp only [subtitleExts, List.map, String.append_assoc]
  rfl

theorem captionTrackNodes_get_ne (b : String) (s : Subtitles) (t : CaptionTrack) (k : String)
    (hne : k ≠ t.LanguageCode) :
    Subtitles.get (captionTrackNodes b s t) k = Subtitles.get s k := by
  unfold captionTrackNodes
  exact appendLoop_get_ne (fun ext => { Ext := ext, Url := b ++ "&fmt=" ++ ext }) _ _ _ _ hne

/-- The first loop of `parseSubtitles`: the bucket of `L` grows by five nodes for
each caption track with code `L`, in input order. -/
theorem captionLoop_get (b : String) (tracks : List CaptionTrack) (s : Subtitles) (L : String) :
    Subtitles.get (tracks.foldl (captionTrackNodes b) s) L =
      Subtitles.get s L ++
        (tracks.filter (fun t => t.LanguageCode = L)).flatMap (fun _ =>
          [{ Ext := "srv1", Url := b ++ "&fmt=srv1" }, { Ext := "srv2", Url := b ++ "&fmt=srv2" },
           { Ext := "srv3", Url := b ++ "&fmt=srv3" }, { Ext := "ttml", Url := b ++ "&fmt=ttml" },
           { Ext := "vtt", Url := b ++ "&fmt=vtt" }]) := by
  induction tracks generalizing s with
  | nil => simp
  | cons t ts ih =>
    rw [List.foldl_cons, ih]
    by_cases h : t.LanguageCode = L
    · subst h
      rw [captionTrackNodes_get_self]
      simp [List.filter_cons, List.flatMap_cons]
    · rw [captionTrackNodes_get_ne _ _ _ _ (fun h1 => h h1.symm)]
      simp [List.filter_cons, h]

theorem translationNodes_get_ne (b : String) (s : Subtitles) (l : TranslationLanguage)
    (k : String) (hne : k ≠ l.LanguageCode) :
    Subtitles.get (translationNodes b s l) k = Subtitles.get s k := by
  unfold translationNodes
  split_ifs
  · rfl
  · exact appendLoop_get_ne
      (fun ext => { Ext := ext, Url := b ++ "&fmt=" ++ ext ++ "&tlang=" ++ l.LanguageCode })
      _ _ _ _ hne

/-- A language that already has nodes is skipped by the second loop. -/
theorem translationNodes_get_of_ne_nil (b : String) (s : Subtitles) (l : TranslationLanguage)
    (k : String) (hk : Subtitles.get s k ≠ []) :
    Subtitles.get (translationNodes b s l) k = Subtitles.get s k := by
  by_cases h : k = l.LanguageCode
  · subst h
    unfold translationNodes
    rw [if_pos (List.length_pos.2 hk)]
  · exact translationNodes_get_ne b s l k h

/-- A language without nodes gets its five translated nodes. -/
theorem translationNodes_get_of_nil (b : String) (s : Subtitles) (l : TranslationLanguage)
    (hk : Subtitles.get s l.LanguageCode = []) :
    Subtitles.get (translationNodes b s l) l.LanguageCode =
      [{ Ext := "srv1", Url := b ++ "&fmt=srv1&tlang=" ++ l.LanguageCode },
       { Ext := "srv2", Url := b ++ "&fmt=srv2&tlang=" ++ l.LanguageCode },
       { Ext := "srv3", Url := b ++ "&fmt=srv3&tlang=" ++ l.LanguageCode },
       { Ext := "ttml", Url := b ++ "&fmt=ttml&tlang=" ++ l.LanguageCode },
       { Ext := "vtt", Url := b ++ "&fmt=vtt&tlang=" ++ l.LanguageCode }] := by
  unfold translationNodes
  rw [if_neg (by rw [hk]; decide)]
  rw [appendLoop_get_self
    (fun ext => { Ext := ext, Url := b ++ "&fmt=" ++ ext ++ "&tlang=" ++ l.LanguageCode }), hk]
  simp only [subtitleExts, List.map, String.append_assoc, List.nil_append]
  rfl

/-- The second loop of `parseSubtitles` never changes a bucket that has nodes. -/
theorem translationLoop_get_of_ne_nil (b : String) (ls : List TranslationLanguage)
    (s : Subtitles) (k : String) (hk : Subtitles.get s k ≠ []) :
    Subtitles.get (ls.foldl (translationNodes b) s) k = Subtitles.get s k := by
  induction ls generalizing s with
  | nil => rfl
  | cons l ls ih =>
    have hstep := translationNodes_get_of_ne_nil b s l k hk
    rw [List.foldl_cons, ih _ (by rw [hstep]; exact hk), hstep]

/-- The second loop of `parseSubtitles` fills an empty bucket of a listed
language once. -/
theorem translationLoop_get_of_nil (b : String) (ls : List TranslationLanguage)
    (s : Subtitles) (T : String) (hk : Subtitles.get s T = [])
    (hT : ∃ l ∈ ls, l.LanguageCode = T) :
    Subtitles.get (ls.foldl (translationNodes b) s) T =
      [{ Ext := "srv1", Url := b ++ "&fmt=srv1&tlang=" ++ T },
       { Ext := "srv2", Url := b ++ "&fmt=srv2&tlang=" ++ T },
       { Ext := "srv3", Url := b ++ "&fmt=srv3&tlang=" ++ T },
       { Ext := "ttml", Url := b ++ "&fmt=ttml&tlang=" ++ T },
       { Ext := "vtt", Url := b ++ "&fmt=vtt&tlang=" ++ T }] := by
  induction ls generalizing s with
  | nil =>
    obtain ⟨l, hl, _⟩ := hT
    exact absurd hl (List.not_mem_nil l)
  | cons l ls ih =>
    rw [List.foldl_cons]
    by_cases h : l.LanguageCode = T
    · subst h
      have hstep := translationNodes_get_of_nil b s l hk
      rw [translationLoop_get_of_ne_nil b ls _ _ (by rw [hstep]; exact List.cons_ne_nil _ _), hstep]
    · apply ih
      · rw [translationNodes_get_ne b s l T (fun h1 => h h1.symm)]
        exact hk
      · obtain ⟨l1, hl1, hc⟩ := hT
        rcases List.mem_cons.1 hl1 with h1 | h1
        · subst h1
          exact absurd hc h
        · exact ⟨l1, h1, hc⟩

theorem subtitlesAt_of_some (v : Video) (s : Subtitles) (h : v.Subtitles = some s)
    (k : String) : v.subtitlesAt k = Subtitles.get s k := by
  unfold Video.subtitlesAt
  rw [h]

/-- The table `parseSubtitles` stores for a non-empty caption track list. -/
theorem parseSubtitles_subtitles_cons (v : Video) (prData : PlayerResponseData)
    (first : CaptionTrack) (rest : List CaptionTrack)
    (htracks : prData.Captions.CaptionTracks = first :: rest) :
    (parseSubtitles v prData).1.Subtitles =
      some (if first.BaseUrl = "" then
          (first :: rest).foldl (captionTrackNodes first.BaseUrl) []
        else
          prData.Captions.TranslationLanguages.foldl (translationNodes first.BaseUrl)
            ((first :: rest).foldl (captionTrackNodes first.BaseUrl) [])) := by
  unfold parseSubtitles
  simp only [htracks]
  split_ifs <;> rfl

/-- After the first loop the bucket of a caption track's code has nodes. -/
theorem captionLoop_get_ne_nil (b : String) (tracks : List CaptionTrack) (L : String)
    (hL : ∃ t ∈ tracks, t.LanguageCode = L) :
    Subtitles.get (tracks.foldl (captionTrackNodes b) []) L ≠ [] := by
  rw [captionLoop_get]
  obtain ⟨t, ht, hc⟩ := hL
  have hmem : t ∈ tracks.filter (fun t => t.LanguageCode = L) :=
    List.mem_filter.2 ⟨ht, by simpa using hc⟩
  intro hnil
  have h0 := congrArg List.length hnil
  rw [List.length_append, List.length_flatMap] at h0
  obtain ⟨x, xs, hx⟩ := List.exists_cons_of_ne_nil (List.ne_nil_of_mem hmem)
  rw [hx] at h0
  simp at h0

/-- No caption track with code `T`: the first loop leaves the bucket of `T` empty. -/
theorem captionLoop_get_nil (b : String) (tracks : List CaptionTrack) (T : String)
    (hnot : ∀ t ∈ tracks, t.LanguageCode ≠ T) :
    Subtitles.get (tracks.foldl (captionTrackNodes b) []) T = [] := by
  rw [captionLoop_get]
  have hf : tracks.filter (fun t => t.LanguageCode = T) = [] := by
    rw [List.filter_eq_nil_iff]
    intro t ht
    simpa using hnot t ht
  rw [hf]
  rfl

/-- C8: for a non-empty caption track list with first base URL `b` and a language
code `L` carried by some caption track, the bucket `Subtitles[L]` that
`parseSubtitles` builds is the concatenation, over the tracks with code `L` in
input order, of the five nodes with Ext srv1, srv2, srv3, ttml, vtt and Url
`b + "&fmt=" + Ext`, with `b` the first track's base URL for every track
(whatever the translation languages are). The source sets `Ext` and `Url` only,
so `LanguageCode` is the empty string in each node. -/
theorem parseSubtitles_caption_bucket (v : Video) (prData : PlayerResponseData)
    (first : CaptionTrack) (rest : List CaptionTrack)
    (htracks : prData.Captions.CaptionTracks = first :: rest)
    (L : String) (hL : ∃ t ∈ prData.Captions.CaptionTracks, t.LanguageCode = L) :
    (parseSubtitles v prData).1.subtitlesAt L =
      (prData.Captions.CaptionTracks.filter (fun t => t.LanguageCode = L)).flatMap (fun _ =>
        [{ Ext := "srv1", Url := first.BaseUrl ++ "&fmt=srv1" },
         { Ext := "srv2", Url := first.BaseUrl ++ "&fmt=srv2" },
         { Ext := "srv3", Url := first.BaseUrl ++ "&fmt=srv3" },
         { Ext := "ttml", Url := first.BaseUrl ++ "&fmt=ttml" },
         { Ext := "vtt", Url := first.BaseUrl ++ "&fmt=vtt" }]) := by
  have hs1 := captionLoop_get first.BaseUrl (first :: rest) [] L
  have hne := captionLoop_get_ne_nil first.BaseUrl (first :: rest) L (htracks ▸ hL)
  rw [subtitlesAt_of_some _ _ (parseSubtitles_subtitles_cons v prData first rest htracks),
    htracks]
  split_ifs
  · rw [hs1]; rfl
  · rw [translationLoop_get_of_ne_nil _ _ _ _ hne, hs1]; rfl

/-- Witness of C8: one track `en` with base URL `https://x/caption` and no
translation languages gives exactly the key `en`, with the five URLs
`https://x/caption&fmt=srv1` to `https://x/caption&fmt=vtt` in that order. -/
theorem parseSubtitles_caption_bucket_witness :
    (parseSubtitles {}
        { Captions := { CaptionTracks := [{ BaseUrl := "https://x/caption", LanguageCode := "en" }],
                        TranslationLanguages := [] } }).1.subtitleKeys = ["en"] ∧
      (parseSubtitles {}
        { Captions := { CaptionTracks := [{ BaseUrl := "https://x/caption", LanguageCode := "en" }],
                        TranslationLanguages := [] } }).1.subtitlesAt "en" =
        [{ Ext := "srv1", Url := "https://x/caption&fmt=srv1" },
         { Ext := "srv2", Url := "https://x/caption&fmt=srv2" },
         { Ext := "srv3", Url := "https://x/caption&fmt=srv3" },
         { Ext := "ttml", Url := "https://x/caption&fmt=ttml" },
         { Ext := "vtt", Url := "https://x/caption&fmt=vtt" }] :=
  ⟨by decide,
   (parseSubtitles_caption_bucket {} _ { BaseUrl := "https://x/caption", LanguageCode := "en" } []
      rfl "en" ⟨_, List.mem_singleton.2 rfl, rfl⟩).trans (by decide)⟩

/-- C9: for a non-empty caption track list whose first base URL `b` is not empty
and a translation language code `T` that is not the code of any caption track,
`parseSubtitles` leaves `Subtitles[T]` equal to exactly five nodes with Ext srv1,
srv2, srv3, ttml, vtt in that order and Url `b + "&fmt=" + Ext + "&tlang=" + T`,
however often `T` occurs among the translation languages. -/
theorem parseSubtitles_translation_bucket (v : Video) (prData : PlayerResponseData)
    (first : CaptionTrack) (rest : List CaptionTrack)
    (htracks : prData.Captions.CaptionTracks = first :: rest)
    (hbase : first.BaseUrl ≠ "")
    (T : String) (hT : ∃ l ∈ prData.Captions.TranslationLanguages, l.LanguageCode = T)
    (hnot : ∀ t ∈ prData.Captions.CaptionTracks, t.LanguageCode ≠ T) :
    (parseSubtitles v prData).1.subtitlesAt T =
      [{ Ext := "srv1", Url := first.BaseUrl ++ "&fmt=srv1&tlang=" ++ T },
       { Ext := "srv2", Url := first.BaseUrl ++ "&fmt=srv2&tlang=" ++ T },
       { Ext := "srv3", Url := first.BaseUrl ++ "&fmt=srv3&tlang=" ++ T },
       { Ext := "ttml", Url := first.BaseUrl ++ "&fmt=ttml&tlang=" ++ T },
       { Ext := "vtt", Url := first.BaseUrl ++ "&fmt=vtt&tlang=" ++ T }] := by
  rw [subtitlesAt_of_some _ _ (parseSubtitles_subtitles_cons v prData first rest htracks),
    if_neg hbase]
  exact translationLoop_get_of_nil _ _ _ T
    (captionLoop_get_nil _ _ T (htracks ▸ hnot)) hT

/-- Witness of C9: the track `en` with base URL `https://x/caption` and the
translation languages `fr`, `en`, `fr`. -/
theorem parseSubtitles_translation_bucket_witness :
    (parseSubtitles {}
        { Captions := { CaptionTracks := [{ BaseUrl := "https://x/caption", LanguageCode := "en" }],
                        TranslationLanguages := [{ LanguageCode := "fr" }, { LanguageCode := "en" },
                                                 { LanguageCode := "fr" }] } }).1.subtitlesAt "fr" =
        [{ Ext := "srv1", Url := "https://x/caption&fmt=srv1&tlang=fr" },
         { Ext := "srv2", Url := "https://x/caption&fmt=srv2&tlang=fr" },
         { Ext := "srv3", Url := "https://x/caption&fmt=srv3&tlang=fr" },
         { Ext := "ttml", Url := "https://x/caption&fmt=ttml&tlang=fr" },
         { Ext := "vtt", Url := "https://x/caption&fmt=vtt&tlang=fr" }] :=
  (parseSubtitles_translation_bucket {} _ { BaseUrl := "https://x/caption", LanguageCode := "en" } []
      rfl (by decide) "fr" ⟨{ LanguageCode := "fr" }, by decide, rfl⟩ (by decide)).trans (by decide)

/-- C10: for every caption track list, every translation language list and every
language code `L` carried by some caption track, `Subtitles[L]` after
`parseSubtitles` is the `Subtitles[L]` obtained with an empty translation
language list: no translation-derived node is added to or substituted for a
direct track's bucket. -/
theorem parseSubtitles_direct_bucket_unchanged (v : Video) (prData : PlayerResponseData)
    (L : String) (hL : ∃ t ∈ prData.Captions.CaptionTracks, t.LanguageCode = L) :
    (parseSubtitles v prData).1.subtitlesAt L =
      (parseSubtitles v
        { prData with Captions := { prData.Captions with TranslationLanguages := [] } }).1.subtitlesAt
        L := by
  cases htracks : prData.Captions.CaptionTracks with
  | nil =>
    obtain ⟨t, ht, _⟩ := hL
    rw [htracks] at ht
    exact absurd ht (List.not_mem_nil t)
  | cons first rest =>
    rw [subtitlesAt_of_some _ _ (parseSubtitles_subtitles_cons v prData first rest htracks),
      subtitlesAt_of_some _ _ (parseSubtitles_subtitles_cons v
        { prData with Captions := { prData.Captions with TranslationLanguages := [] } }
        first rest htracks)]
    split_ifs
    · rfl
    · exact translationLoop_get_of_ne_nil _ _ _ _
        (captionLoop_get_ne_nil first.BaseUrl (first :: rest) L (htracks ▸ hL))

/-- Witness of C10: the bucket of the direct track `en` with the translation
languages `fr` and `en` is the bucket built without translation languages. -/
theorem parseSubtitles_direct_bucket_unchanged_witness :
    (parseSubtitles {}
        { Captions := { CaptionTracks := [{ BaseUrl := "https://x/caption", LanguageCode := "en" }],
                        TranslationLanguages := [{ LanguageCode := "fr" },
                                                 { LanguageCode := "en" }] } }).1.subtitlesAt "en" =
      (parseSubtitles {}
        { Captions := { CaptionTracks := [{ BaseUrl := "https://x/caption", LanguageCode := "en" }],
                        TranslationLanguages := [] } }).1.subtitlesAt "en" :=
  parseSubtitles_direct_bucket_unchanged {}
    { Captions := { CaptionTracks := [{ BaseUrl := "https://x/caption", LanguageCode := "en" }],
                    TranslationLanguages := [{ LanguageCode := "fr" }, { LanguageCode := "en" }] } }
    "en" ⟨_, List.mem_singleton.2 rfl, rfl⟩

/-! ## Properties of the stable sort -/

theorem getElem?_mid {α : Type} (l : List α) (a : α) (r : List α) :
    (l ++ a :: r)[l.length]? = some a := by
  rw [List.getElem?_append_right (Nat.le_refl _)]
  simp

theorem getElem?_mid_succ {α : Type} (l : List α) (a b : α) (r : List α) :
    (l ++ a :: b :: r)[l.length + 1]? = some b := by
  rw [List.getElem?_append_right (Nat.le_succ _)]
  simp

theorem swapAt_mid {α : Type} (l : List α) (a b : α) (r : List α) :
    swapAt (l ++ a :: b :: r) (l.length + 1) l.length = some (l ++ b :: a :: r) := by
  unfold swapAt
  rw [getElem?_mid_succ, getElem?_mid]
  simp only
  rw [List.set_append_right _ _ (Nat.le_succ _), List.set_append_right _ _ (Nat.le_refl _)]
  simp

/-- One run of the inner loop, entered at the first unsorted element: it does
not panic and inserts that element into the sorted part. -/
theorem insertionInner_eq {α : Type} (lessE : α → α → Bool) (racc : List α) (x : α)
    (post : List α) :
    insertionInner (indexLess lessE) racc.length (racc.reverse ++ x :: post) =
      some ((insertRev lessE x racc).reverse ++ post) := by
  induction racc generalizing post with
  | nil => simp [insertionInner, insertRev]
  | cons y ys ih =>
    have hdata : (y :: ys).reverse ++ x :: post = ys.reverse ++ y :: x :: post := by simp
    have hlen : (y :: ys).length = ys.reverse.length + 1 := by simp
    rw [hdata, hlen, insertionInner]
    have hless : indexLess lessE (ys.reverse ++ y :: x :: post) (ys.reverse.length + 1)
        ys.reverse.length = some (lessE x y) := by
      unfold indexLess
      rw [getElem?_mid_succ, getElem?_mid]
    rw [hless]
    cases hxy : lessE x y with
    | false => simp [insertRev, hxy]
    | true =>
      simp only [swapAt_mid]
      have hih := ih (y :: post)
      rw [List.length_reverse]
      rw [hih]
      simp [insertRev, hxy]

theorem insertRev_length {α : Type} (lessE : α → α → Bool) (x : α) (acc : List α) :
    (insertRev lessE x acc).length = acc.length + 1 := by
  induction acc with
  | nil => rfl
  | cons y ys ih =>
    unfold insertRev
    split_ifs
    · simp [ih]
    · simp

/-- The outer loop over the unsorted rest: it does not panic and inserts the
elements of the rest one after the other. -/
theorem insertionOuter_eq {α : Type} (lessE : α → α → Bool) (rest racc : List α) :
    insertionOuter (indexLess lessE) (List.range' racc.length rest.length)
        (racc.reverse ++ rest) =
      some ((rest.foldl (fun acc y => insertRev lessE y acc) racc).reverse) := by
  induction rest generalizing racc with
  | nil => simp [insertionOuter]
  | cons x xs ih =>
    rw [List.length_cons, List.range'_succ, insertionOuter, insertionInner_eq]
    simp only
    have h := ih (insertRev lessE x racc)
    rw [insertRev_length] at h
    rw [h, List.foldl_cons]

/-- The model of `sort.SliceStable` under an element comparator never panics and
computes `insertAll`. -/
theorem sortSliceStable_eq {α : Type} (lessE : α → α → Bool) (x : List α) :
    sortSliceStable x (indexLess lessE) = some (insertAll lessE x) := by
  unfold sortSliceStable insertAll
  cases x with
  | nil => simp [insertionOuter]
  | cons a xs =>
    have h := insertionOuter_eq lessE xs [a]
    simpa [insertRev] using h

theorem insertRev_perm {α : Type} (lessE : α → α → Bool) (x : α) (acc : List α) :
    (insertRev lessE x acc).Perm (x :: acc) := by
  induction acc with
  | nil => exact List.Perm.refl _
  | cons y ys ih =>
    unfold insertRev
    split_ifs
    · exact ((List.Perm.cons y ih).trans (List.Perm.swap x y ys))
    · exact List.Perm.refl _

theorem insertFold_perm {α : Type} (lessE : α → α → Bool) (x acc : List α) :
    (x.foldl (fun acc y => insertRev lessE y acc) acc).Perm (x.reverse ++ acc) := by
  induction x generalizing acc with
  | nil => exact List.Perm.refl _
  | cons a xs ih =>
    rw [List.foldl_cons]
    refine (ih _).trans ?_
    rw [List.reverse_cons, List.append_assoc]
    exact List.Perm.append_left _ (insertRev_perm lessE a acc)

/-- The sort returns a permutation of the slice. -/
theorem insertAll_perm {α : Type} (lessE : α → α → Bool) (x : List α) :
    (insertAll lessE x).Perm x := by
  unfold insertAll
  refine (List.reverse_perm _).trans ((insertFold_perm lessE x []).trans ?_)
  rw [List.append_nil]
  exact List.reverse_perm x

/-- Inserting into a part that is ordered by a key keeps it ordered. The part is
held in reverse, so its keys do not decrease from the head on; `lessE` is
"greater key" (descending) here. -/
theorem insertRev_pairwise_desc {α : Type} (key : α → Int) (x : α) (acc : List α)
    (hacc : acc.Pairwise (fun a b => key a ≤ key b)) :
    (insertRev (fun a b => decide (key a > key b)) x acc).Pairwise
      (fun a b => key a ≤ key b) := by
  induction acc with
  | nil => simp [insertRev]
  | cons y ys ih =>
    rw [List.pairwise_cons] at hacc
    unfold insertRev
    split_ifs with h
    · have hxy : key y < key x := by simpa using h
      rw [List.pairwise_cons]
      refine ⟨?_, ih hacc.2⟩
      intro z hz
      rcases List.mem_cons.1 ((insertRev_perm _ x ys).subset hz) with hzx | hzy
      · rw [hzx]; exact le_of_lt hxy
      · exact hacc.1 z hzy
    · have hxy : key x ≤ key y := by simpa using h
      rw [List.pairwise_cons]
      refine ⟨?_, List.pairwise_cons.2 hacc⟩
      intro z hz
      rcases List.mem_cons.1 hz with hzy | hzy
      · rw [hzy]; exact hxy
      · exact le_trans hxy (hacc.1 z hzy)

theorem insertFold_pairwise_desc {α : Type} (key : α → Int) (x acc : List α)
    (hacc : acc.Pairwise (fun a b => key a ≤ key b)) :
    (x.foldl (fun acc y => insertRev (fun a b => decide (key a > key b)) y acc) acc).Pairwise
      (fun a b => key a ≤ key b) := by
  induction x generalizing acc with
  | nil => exact hacc
  | cons a xs ih =>
    rw [List.foldl_cons]
    exact ih _ (insertRev_pairwise_desc key a acc hacc)

/-- Under "greater key" the sort returns the keys in non-increasing order. -/
theorem insertAll_pairwise_desc {α : Type} (key : α → Int) (x : List α) :
    (insertAll (fun a b => decide (key a > key b)) x).Pairwise (fun a b => key a ≥ key b) := by
  unfold insertAll
  rw [List.pairwise_reverse]
  exact insertFold_pairwise_desc key x [] List.Pairwise.nil

/-- An element only moves past elements of another key: the elements of one key
keep their order. -/
theorem insertRev_filter_key {α : Type} (key : α → Int) (k : Int) (x : α) (acc : List α) :
    (insertRev (fun a b => decide (key a > key b)) x acc).filter (fun a => key a = k) =
      (x :: acc).filter (fun a => key a = k) := by
  induction acc with
  | nil => rfl
  | cons y ys ih =>
    unfold insertRev
    split_ifs with h
    · have hxy : key y < key x := by simpa using h
      rw [List.filter_cons, ih]
      by_cases hy : key y = k
      · have hx : ¬ key x = k := fun hx => by rw [hx, hy] at hxy; exact lt_irrefl _ hxy
        simp [List.filter_cons, hy, hx]
      · by_cases hx : key x = k <;> simp [List.filter_cons, hy, hx]
    · rfl

theorem insertFold_filter_key {α : Type} (key : α → Int) (k : Int) (x acc : List α) :
    (x.foldl (fun acc y => insertRev (fun a b => decide (key a > key b)) y acc) acc).filter
        (fun a => key a = k) =
      (x.reverse ++ acc).filter (fun a => key a = k) := by
  induction x generalizing acc with
  | nil => rfl
  | cons a xs ih =>
    rw [List.foldl_cons, ih, List.filter_append, insertRev_filter_key, List.reverse_cons,
      List.append_assoc, List.filter_append]
    rfl

/-- The sort is stable: for each key, the elements of that key come out in the
order they went in. -/
theorem insertAll_filter_key {α : Type} (key : α → Int) (k : Int) (x : List α) :
    (insertAll (fun a b => decide (key a > key b)) x).filter (fun a => key a = k) =
      x.filter (fun a => key a = k) := by
  unfold insertAll
  rw [List.filter_reverse, insertFold_filter_key, List.append_nil, List.filter_reverse,
    List.reverse_reverse]

/-! ## Properties of the metadata extractor -/

/-- The comparator `SortBitrateDesc` compares two elements of `Formats` by
"greater bitrate". -/
theorem SortBitrateDesc_eq_indexLess (w : Video) (i j : Nat) :
    SortBitrateDesc w i j = indexLess (fun a b => decide (a.Bitrate > b.Bitrate)) w.Formats i j := by
  unfold SortBitrateDesc indexLess
  cases w.Formats[i]? <;> cases w.Formats[j]? <;> rfl

/-- The method `parseSubtitles` never returns an error. -/
theorem parseSubtitles_snd (v : Video) (prData : PlayerResponseData) :
    (parseSubtitles v prData).2 = none := by
  unfold parseSubtitles
  cases prData.Captions.CaptionTracks with
  | nil => rfl
  | cons first rest =>
    simp only
    split_ifs <;> rfl

/-- The method `parseSubtitles` writes no field but `Subtitles`. -/
theorem parseSubtitles_formats (v : Video) (prData : PlayerResponseData) :
    (parseSubtitles v prData).1.Formats = v.Formats := by
  unfold parseSubtitles
  cases prData.Captions.CaptionTracks with
  | nil => rfl
  | cons first rest =>
    simp only
    split_ifs <;> rfl

/-- With at least one format the extractor does not panic, returns no error and
stores the catalogue sorted by `sort.SliceStable` under `SortBitrateDesc`. -/
theorem extract_of_formats_ne_nil (v : Video) (prData : PlayerResponseData)
    (hne : prData.StreamingData.Formats ++ prData.StreamingData.AdaptiveFormats ≠ []) :
    ∃ v1 : Video, extractDataFromPlayerResponse v prData = some (v1, none) ∧
      v1.Formats = insertAll (fun a b => decide (a.Bitrate > b.Bitrate))
        (prData.StreamingData.Formats ++ prData.StreamingData.AdaptiveFormats) := by
  have hlen : ¬ (prData.StreamingData.Formats ++ prData.StreamingData.AdaptiveFormats).length = 0 :=
    fun h => hne (List.length_eq_zero.1 h)
  unfold extractDataFromPlayerResponse
  simp only [if_neg hlen]
  simp only [SortBitrateDesc_eq_indexLess, sortSliceStable_eq]
  generalize hp : parseSubtitles _ prData = p
  have he : p.2 = none := by
    rw [← hp]
    exact parseSubtitles_snd _ _
  have hf : p.1.Formats = insertAll (fun a b => decide (a.Bitrate > b.Bitrate))
      (prData.StreamingData.Formats ++ prData.StreamingData.AdaptiveFormats) := by
    rw [← hp, parseSubtitles_formats]
  obtain ⟨v6, e⟩ := p
  simp only at he
  subst he
  exact ⟨v6, rfl, hf⟩

/-- With no format at all the extractor returns the no-formats error. -/
theorem extract_of_formats_nil (v : Video) (prData : PlayerResponseData)
    (hnil : prData.StreamingData.Formats ++ prData.StreamingData.AdaptiveFormats = []) :
    ∃ v1 : Video, extractDataFromPlayerResponse v prData =
      some (v1, some (Error.errorString "no formats found in the server's answer")) := by
  have hlen : (prData.StreamingData.Formats ++ prData.StreamingData.AdaptiveFormats).length = 0 :=
    List.length_eq_zero.2 hnil
  unfold extractDataFromPlayerResponse
  simp only [if_pos hlen]
  exact ⟨_, rfl⟩

/-- C1: for every progressive list `P` and adaptive list `A` with `P ++ A` not
empty, `extractDataFromPlayerResponse` returns without error and the Video's
`Formats` is a permutation of `P ++ A` whose bitrates are non-increasing, in
which the formats of any one bitrate come in the order they have in `P ++ A`:
those of `P` first, then those of `A`. -/
theorem extractDataFromPlayerResponse_formats_sorted_stable (v : Video)
    (prData : PlayerResponseData)
    (hne : prData.StreamingData.Formats ++ prData.StreamingData.AdaptiveFormats ≠ []) :
    ∃ v1 : Video, extractDataFromPlayerResponse v prData = some (v1, none) ∧
      v1.Formats.Perm (prData.StreamingData.Formats ++ prData.StreamingData.AdaptiveFormats) ∧
      v1.Formats.Pairwise (fun a b => a.Bitrate ≥ b.Bitrate) ∧
      ∀ k : Int, v1.Formats.filter (fun f => f.Bitrate = k) =
        prData.StreamingData.Formats.filter (fun f => f.Bitrate = k) ++
          prData.StreamingData.AdaptiveFormats.filter (fun f => f.Bitrate = k) := by
  obtain ⟨v1, hrun, hformats⟩ := extract_of_formats_ne_nil v prData hne
  refine ⟨v1, hrun, ?_, ?_, ?_⟩
  · rw [hformats]
    exact insertAll_perm _ _
  · rw [hformats]
    exact insertAll_pairwise_desc (fun f : Format => f.Bitrate) _
  · intro k
    rw [hformats, insertAll_filter_key (fun f : Format => f.Bitrate) k, List.filter_append]

/-- Witness of C1: two progressive and three adaptive formats, with itags
1, 2 and 4, 6, 7 and bitrates 5, 7 and 7, 9, 5; the sorted catalogue has the
itags 6, 2, 4, 1, 7. -/
theorem extractDataFromPlayerResponse_formats_sorted_stable_witness :
    (extractDataFromPlayerResponse {}
        { StreamingData :=
            { Formats := [{ ItagNo := 1, Bitrate := 5 }, { ItagNo := 2, Bitrate := 7 }],
              AdaptiveFormats := [{ ItagNo := 4, Bitrate := 7 }, { ItagNo := 6, Bitrate := 9 },
                                  { ItagNo := 7, Bitrate := 5 }] } }).map
        (fun r => (r.1.Formats.map (fun f => f.ItagNo), r.2)) = some ([6, 2, 4, 1, 7], none) ∧
      ∃ v1 : Video,
        extractDataFromPlayerResponse {}
          { StreamingData :=
            { Formats := [{ ItagNo := 1, Bitrate := 5 }, { ItagNo := 2, Bitrate := 7 }],
              AdaptiveFormats := [{ ItagNo := 4, Bitrate := 7 }, { ItagNo := 6, Bitrate := 9 },
                                  { ItagNo := 7, Bitrate := 5 }] } } = some (v1, none) ∧
        v1.Formats.Perm
          ([{ ItagNo := 1, Bitrate := 5 }, { ItagNo := 2, Bitrate := 7 }] ++
            [{ ItagNo := 4, Bitrate := 7 }, { ItagNo := 6, Bitrate := 9 },
             { ItagNo := 7, Bitrate := 5 }]) ∧
        v1.Formats.Pairwise (fun a b => a.Bitrate ≥ b.Bitrate) ∧
        ∀ k : Int, v1.Formats.filter (fun f => f.Bitrate = k) =
          [{ ItagNo := 1, Bitrate := 5 }, { ItagNo := 2, Bitrate := 7 }].filter
              (fun f => f.Bitrate = k) ++
            [{ ItagNo := 4, Bitrate := 7 }, { ItagNo := 6, Bitrate := 9 },
             { ItagNo := 7, Bitrate := 5 }].filter (fun f => f.Bitrate = k) :=
  ⟨by decide,
   extractDataFromPlayerResponse_formats_sorted_stable {}
    { StreamingData :=
        { Formats := [{ ItagNo := 1, Bitrate := 5 }, { ItagNo := 2, Bitrate := 7 }],
          AdaptiveFormats := [{ ItagNo := 4, Bitrate := 7 }, { ItagNo := 6, Bitrate := 9 },
                              { ItagNo := 7, Bitrate := 5 }] } }
    (by decide)⟩

/-- C2: `extractDataFromPlayerResponse` always returns (it does not panic); it
returns an error if and only if both the formats list and the adaptiveFormats
list of the response are empty; and whenever it returns no error the Video's
`Formats` is not empty. -/
theorem extractDataFromPlayerResponse_error_iff_no_formats (v : Video)
    (prData : PlayerResponseData) :
    (∃ r, extractDataFromPlayerResponse v prData = some r) ∧
      ((∃ (v1 : Video) (err : Error),
          extractDataFromPlayerResponse v prData = some (v1, some err)) ↔
        (prData.StreamingData.Formats = [] ∧ prData.StreamingData.AdaptiveFormats = [])) ∧
      (∀ v1 : Video, extractDataFromPlayerResponse v prData = some (v1, none) →
        v1.Formats ≠ []) := by
  by_cases h : prData.StreamingData.Formats ++ prData.StreamingData.AdaptiveFormats = []
  · obtain ⟨v1, hrun⟩ := extract_of_formats_nil v prData h
    refine ⟨⟨_, hrun⟩, ⟨fun _ => List.append_eq_nil.1 h, fun _ => ⟨_, _, hrun⟩⟩, ?_⟩
    intro v2 h2
    rw [hrun] at h2
    simp at h2
  · obtain ⟨v1, hrun, hformats⟩ := extract_of_formats_ne_nil v prData h
    refine ⟨⟨_, hrun⟩, ⟨?_, fun hnil => absurd (List.append_eq_nil.2 hnil) h⟩, ?_⟩
    · rintro ⟨v2, err, h2⟩
      rw [hrun] at h2
      simp at h2
    · intro v2 h2
      rw [hrun] at h2
      have hv : v1 = v2 := by simpa using h2
      rw [← hv, hformats]
      intro hnil
      have hperm := insertAll_perm (fun a b : Format => decide (a.Bitrate > b.Bitrate))
        (prData.StreamingData.Formats ++ prData.StreamingData.AdaptiveFormats)
      rw [hnil] at hperm
      exact h (List.Perm.nil_eq hperm).symm

/-- Witness of C2: a response with one adaptive format is extracted without
error into a Video with a format; the empty response gives an error. -/
theorem extractDataFromPlayerResponse_error_iff_no_formats_witness :
    (∃ v1 : Video,
        extractDataFromPlayerResponse {}
          { StreamingData := { AdaptiveFormats := [{ ItagNo := 140, Bitrate := 128000 }] } } =
          some (v1, none) ∧ v1.Formats ≠ []) ∧
      (∃ (v1 : Video) (err : Error), extractDataFromPlayerResponse {} {} = some (v1, some err)) :=
  ⟨(extract_of_formats_ne_nil {}
      { StreamingData := { AdaptiveFormats := [{ ItagNo := 140, Bitrate := 128000 }] } }
      (by decide)).elim
      (fun v1 h => ⟨v1, h.1,
        (extractDataFromPlayerResponse_error_iff_no_formats {} _).2.2 v1 h.1⟩),
   (extractDataFromPlayerResponse_error_iff_no_formats {} {}).2.1.2 ⟨rfl, rfl⟩⟩

/-! ## The empty caption list, the default link and the keys of the table -/

/-- C11: when the caption track list is empty, `parseSubtitles` returns no error
and sets `Subtitles` to an empty, non-nil mapping with no keys, whatever the
translation language list is; no other field of the Video changes. -/
theorem parseSubtitles_no_caption_tracks (v : Video) (prData : PlayerResponseData)
    (htracks : prData.Captions.CaptionTracks = []) :
    parseSubtitles v prData = ({ v with Subtitles := some [] }, none) ∧
      (parseSubtitles v prData).1.subtitleKeys = [] := by
  have h : parseSubtitles v prData = ({ v with Subtitles := some [] }, none) := by
    unfold parseSubtitles
    rw [htracks]
  rw [h]
  exact ⟨rfl, rfl⟩

/-- Witness of C11: no caption tracks and the translation languages `fr`, `de`. -/
theorem parseSubtitles_no_caption_tracks_witness :
    parseSubtitles {}
        { Captions := { CaptionTracks := [],
                        TranslationLanguages := [{ LanguageCode := "fr" },
                                                 { LanguageCode := "de" }] } } =
        ({ Subtitles := some [] }, none) ∧
      (parseSubtitles {}
        { Captions := { CaptionTracks := [],
                        TranslationLanguages := [{ LanguageCode := "fr" },
                                                 { LanguageCode := "de" }] } }).1.subtitleKeys = [] :=
  parseSubtitles_no_caption_tracks {}
    { Captions := { CaptionTracks := [],
                    TranslationLanguages := [{ LanguageCode := "fr" }, { LanguageCode := "de" }] } }
    rfl

theorem Subtitles.lookup_of_get_cons (s : Subtitles) (k : String) (n : SubtitlesNode)
    (ns : List SubtitlesNode) (h : Subtitles.get s k = n :: ns) :
    Subtitles.lookup s k = some (n :: ns) := by
  unfold Subtitles.get at h
  cases hl : Subtitles.lookup s k with
  | none =>
    rw [hl] at h
    exact absurd h (by simp)
  | some l =>
    rw [hl] at h
    simpa using h

/-- The bucket of a caption track's code starts with the `srv1` node of the
first track's base URL. -/
theorem parseSubtitles_bucket_head (v : Video) (prData : PlayerResponseData)
    (first : CaptionTrack) (rest : List CaptionTrack)
    (htracks : prData.Captions.CaptionTracks = first :: rest)
    (c : String) (hc : ∃ t ∈ prData.Captions.CaptionTracks, t.LanguageCode = c) :
    ∃ ns, (parseSubtitles v prData).1.subtitlesAt c =
      { Ext := "srv1", Url := first.BaseUrl ++ "&fmt=srv1" } :: ns := by
  have hs1 := captionLoop_get first.BaseUrl (first :: rest) [] c
  have hne := captionLoop_get_ne_nil first.BaseUrl (first :: rest) c (htracks ▸ hc)
  obtain ⟨t, ht, hcode⟩ := hc
  rw [htracks] at ht
  have hmem : t ∈ (first :: rest).filter (fun t => t.LanguageCode = c) :=
    List.mem_filter.2 ⟨ht, by simpa using hcode⟩
  obtain ⟨x, xs, hx⟩ := List.exists_cons_of_ne_nil (List.ne_nil_of_mem hmem)
  rw [hx, List.flatMap_cons] at hs1
  rw [subtitlesAt_of_some _ _ (parseSubtitles_subtitles_cons v prData first rest htracks)]
  split_ifs
  · rw [hs1]
    exact ⟨_, rfl⟩
  · rw [translationLoop_get_of_ne_nil _ _ _ _ hne, hs1]
    exact ⟨_, rfl⟩

/-- C12: for every Subtitles table `s` and language code `c`, `GetSubtitleLink`
returns the Url of the first node of `s[c]` when `c` is a key with a non-empty
node list, and the empty string when `c` is not a key of `s` or its list is
empty; on a table built by `parseSubtitles` from tracks with first base URL `b`,
for the code `c` of a track, it returns `b + "&fmt=srv1"`. -/
theorem GetSubtitleLink_first_node (s : Subtitles) (c : String) :
    (∀ (n : SubtitlesNode) (ns : List SubtitlesNode),
        Subtitles.lookup s c = some (n :: ns) → GetSubtitleLink s c = n.Url) ∧
      (Subtitles.lookup s c = none → GetSubtitleLink s c = "") ∧
      (Subtitles.lookup s c = some [] → GetSubtitleLink s c = "") ∧
      (∀ (v : Video) (prData : PlayerResponseData) (first : CaptionTrack)
          (rest : List CaptionTrack),
        prData.Captions.CaptionTracks = first :: rest →
        (∃ t ∈ prData.Captions.CaptionTracks, t.LanguageCode = c) →
        ∃ table : Subtitles, (parseSubtitles v prData).1.Subtitles = some table ∧
          GetSubtitleLink table c = first.BaseUrl ++ "&fmt=srv1") := by
  refine ⟨?_, ?_, ?_, ?_⟩
  · intro n ns h
    unfold GetSubtitleLink
    rw [h]
  · intro h
    unfold GetSubtitleLink
    rw [h]
  · intro h
    unfold GetSubtitleLink
    rw [h]
  · intro v prData first rest htracks hc
    obtain ⟨ns, hns⟩ := parseSubtitles_bucket_head v prData first rest htracks c hc
    have hsome := parseSubtitles_subtitles_cons v prData first rest htracks
    refine ⟨_, hsome, ?_⟩
    rw [subtitlesAt_of_some _ _ hsome] at hns
    unfold GetSubtitleLink
    rw [Subtitles.lookup_of_get_cons _ _ _ _ hns]

/-- Witness of C12: on the table built from the track `en` with base URL
`https://x/caption`, the link of `en` is the `srv1` URL and the link of the
absent `de` is empty. -/
theorem GetSubtitleLink_first_node_witness :
    (∃ table : Subtitles,
        (parseSubtitles {}
          { Captions := { CaptionTracks :=
              [{ BaseUrl := "https://x/caption", LanguageCode := "en" }] } }).1.Subtitles =
          some table ∧
        GetSubtitleLink table "en" = "https://x/caption" ++ "&fmt=srv1") ∧
      GetSubtitleLink
        [("en", [{ Ext := "srv1", Url := "https://x/caption&fmt=srv1" },
                 { Ext := "srv2", Url := "https://x/caption&fmt=srv2" }])] "en" =
        "https://x/caption&fmt=srv1" ∧
      GetSubtitleLink
        [("en", [{ Ext := "srv1", Url := "https://x/caption&fmt=srv1" }])] "de" = "" ∧
      GetSubtitleLink [("en", [])] "en" = "" :=
  ⟨(GetSubtitleLink_first_node [] "en").2.2.2 {}
      { Captions := { CaptionTracks :=
          [{ BaseUrl := "https://x/caption", LanguageCode := "en" }] } }
      { BaseUrl := "https://x/caption", LanguageCode := "en" } [] rfl
      ⟨_, List.mem_singleton.2 rfl, rfl⟩,
   (GetSubtitleLink_first_node _ "en").1 { Ext := "srv1", Url := "https://x/caption&fmt=srv1" }
     [{ Ext := "srv2", Url := "https://x/caption&fmt=srv2" }] (by decide),
   (GetSubtitleLink_first_node _ "de").2.1 (by decide),
   (GetSubtitleLink_first_node _ "en").2.2.1 (by decide)⟩

/-! ## The parse entry points -/

/-- C14: for every decoded response on which `isVideoDownloadable` returns an
error, `parseVideoInfo` (with `isVideoPage = false`) and `parseVideoPage` (with
`isVideoPage = true`) return exactly that error together with the Video they
were given, unchanged in every field: `extractDataFromPlayerResponse` is not
run. -/
theorem parse_entry_points_stop_on_classifier_error (v : Video) (prData : PlayerResponseData) :
    (∀ err : Error, isVideoDownloadable prData false = some err →
        parseVideoInfo v prData = some (v, some err)) ∧
      (∀ err : Error, isVideoDownloadable prData true = some err →
        parseVideoPage v prData = some (v, some err)) := by
  constructor
  · intro err h
    unfold parseVideoInfo isVideoFromInfoDownloadable
    rw [h]
  · intro err h
    unfold parseVideoPage isVideoFromPageDownloadable
    rw [h]

/-- Witness of C14: a private video with a title and a format; both entry points
return `ErrVideoPrivate` and leave the fresh Video as it was. -/
theorem parse_entry_points_stop_on_classifier_error_witness :
    parseVideoInfo {}
        { PlayabilityStatus := { Status := "LOGIN_REQUIRED", Reason := "This video is private." },
          VideoDetails := { Title := "t" },
          StreamingData := { Formats := [{ ItagNo := 18, Bitrate := 5 }] } } =
        some ({}, some Error.ErrVideoPrivate) ∧
      parseVideoPage {}
        { PlayabilityStatus := { Status := "LOGIN_REQUIRED", Reason := "This video is private." },
          VideoDetails := { Title := "t" },
          StreamingData := { Formats := [{ ItagNo := 18, Bitrate := 5 }] } } =
        some ({}, some Error.ErrVideoPrivate) :=
  ⟨(parse_entry_points_stop_on_classifier_error {} _).1 _ (by decide),
   (parse_entry_points_stop_on_classifier_error {} _).2 _ (by decide)⟩

/-! ## The keys and the nodes of the whole table -/

theorem Subtitles.mem_keys_set (s : Subtitles) (k k1 : String) (ns : List SubtitlesNode) :
    k ∈ Subtitles.keys (Subtitles.set s k1 ns) ↔ k = k1 ∨ k ∈ Subtitles.keys s := by
  induction s with
  | nil => simp [Subtitles.set, Subtitles.keys]
  | cons p rest ih =>
    obtain ⟨k2, ns2⟩ := p
    unfold Subtitles.keys at ih
    by_cases h : k2 = k1
    · subst h
      simp [Subtitles.set, Subtitles.keys]
    · simp only [Subtitles.set, if_neg h, Subtitles.keys, List.map_cons, List.mem_cons, ih]
      tauto

/-- The append loop over a non-empty list of tags makes its key a key of the
table and adds no other. -/
theorem appendLoop_keys (mk : String → SubtitlesNode) (code k : String) (exts : List String)
    (s : Subtitles) :
    k ∈ Subtitles.keys
        (exts.foldl (fun m ext => Subtitles.set m code (Subtitles.get m code ++ [mk ext])) s) ↔
      (exts ≠ [] ∧ k = code) ∨ k ∈ Subtitles.keys s := by
  induction exts generalizing s with
  | nil => simp
  | cons e es ih =>
    rw [List.foldl_cons, ih, Subtitles.mem_keys_set]
    constructor
    · rintro (⟨_, h⟩ | h | h)
      · exact Or.inl ⟨List.cons_ne_nil _ _, h⟩
      · exact Or.inl ⟨List.cons_ne_nil _ _, h⟩
      · exact Or.inr h
    · rintro (⟨_, h⟩ | h)
      · exact Or.inr (Or.inl h)
      · exact Or.inr (Or.inr h)

theorem captionTrackNodes_keys (b : String) (s : Subtitles) (t : CaptionTrack) (k : String) :
    k ∈ Subtitles.keys (captionTrackNodes b s t) ↔ k = t.LanguageCode ∨ k ∈ Subtitles.keys s := by
  unfold captionTrackNodes
  rw [appendLoop_keys (fun ext => { Ext := ext, Url := b ++ "&fmt=" ++ ext })]
  simp [subtitleExts]

/-- The keys after the first loop of `parseSubtitles`: the codes of the caption
tracks, and the keys there were. -/
theorem captionLoop_keys (b : String) (tracks : List CaptionTrack) (s : Subtitles) (k : String) :
    k ∈ Subtitles.keys (tracks.foldl (captionTrackNodes b) s) ↔
      (∃ t ∈ tracks, t.LanguageCode = k) ∨ k ∈ Subtitles.keys s := by
  induction tracks generalizing s with
  | nil => simp
  | cons t ts ih =>
    rw [List.foldl_cons, ih, captionTrackNodes_keys]
    constructor
    · rintro (⟨t1, ht1, hc⟩ | h | h)
      · exact Or.inl ⟨t1, List.mem_cons_of_mem _ ht1, hc⟩
      · exact Or.inl ⟨t, List.mem_cons_self _ _, h.symm⟩
      · exact Or.inr h
    · rintro (⟨t1, ht1, hc⟩ | h)
      · rcases List.mem_cons.1 ht1 with h1 | h1
        · subst h1
          exact Or.inr (Or.inl hc.symm)
        · exact Or.inl ⟨t1, h1, hc⟩
      · exact Or.inr (Or.inr h)

/-- C17: when the caption track list is not empty and the first track's base URL
is the empty string, `parseSubtitles` skips the translation languages: the keys
of the resulting table are exactly the language codes of the caption tracks, and
no translation language that is not a caption track code is a key. -/
theorem parseSubtitles_empty_base_keys (v : Video) (prData : PlayerResponseData)
    (first : CaptionTrack) (rest : List CaptionTrack)
    (htracks : prData.Captions.CaptionTracks = first :: rest)
    (hbase : first.BaseUrl = "") :
    (∀ k : String, k ∈ (parseSubtitles v prData).1.subtitleKeys ↔
        ∃ t ∈ prData.Captions.CaptionTracks, t.LanguageCode = k) ∧
      (∀ l ∈ prData.Captions.TranslationLanguages,
        (∀ t ∈ prData.Captions.CaptionTracks, t.LanguageCode ≠ l.LanguageCode) →
        l.LanguageCode ∉ (parseSubtitles v prData).1.subtitleKeys) := by
  have hkeys : ∀ k : String, k ∈ (parseSubtitles v prData).1.subtitleKeys ↔
      ∃ t ∈ prData.Captions.CaptionTracks, t.LanguageCode = k := by
    intro k
    unfold Video.subtitleKeys
    rw [parseSubtitles_subtitles_cons v prData first rest htracks, if_pos hbase, htracks]
    simp only
    rw [captionLoop_keys]
    simp [Subtitles.keys]
  refine ⟨hkeys, ?_⟩
  intro l _ hnot hmem
  obtain ⟨t, ht, hc⟩ := (hkeys _).1 hmem
  exact hnot t ht hc

/-- Witness of C17: the tracks `en` and `de` with an empty first base URL and
the translation languages `fr` and `en`; the keys are `en` and `de`. -/
theorem parseSubtitles_empty_base_keys_witness :
    (parseSubtitles {}
        { Captions := { CaptionTracks := [{ BaseUrl := "", LanguageCode := "en" },
                                          { BaseUrl := "https://x/caption", LanguageCode := "de" }],
                        TranslationLanguages := [{ LanguageCode := "fr" },
                                                 { LanguageCode := "en" }] } }).1.subtitleKeys =
        ["en", "de"] ∧
      "fr" ∉ (parseSubtitles {}
        { Captions := { CaptionTracks := [{ BaseUrl := "", LanguageCode := "en" },
                                          { BaseUrl := "https://x/caption", LanguageCode := "de" }],
                        TranslationLanguages := [{ LanguageCode := "fr" },
                                                 { LanguageCode := "en" }] } }).1.subtitleKeys :=
  ⟨by decide,
   (parseSubtitles_empty_base_keys {}
      { Captions := { CaptionTracks := [{ BaseUrl := "", LanguageCode := "en" },
                                        { BaseUrl := "https://x/caption", LanguageCode := "de" }],
                      TranslationLanguages := [{ LanguageCode := "fr" },
                                               { LanguageCode := "en" }] } }
      { BaseUrl := "", LanguageCode := "en" }
      [{ BaseUrl := "https://x/caption", LanguageCode := "de" }] rfl rfl).2
      { LanguageCode := "fr" } (by decide) (by decide)⟩

theorem Subtitles.mem_set (s : Subtitles) (k : String) (ns : List SubtitlesNode)
    (p : String × List SubtitlesNode) (hp : p ∈ Subtitles.set s k ns) :
    p = (k, ns) ∨ p ∈ s := by
  induction s with
  | nil =>
    simp only [Subtitles.set, List.mem_singleton] at hp
    exact Or.inl hp
  | cons q rest ih =>
    obtain ⟨k2, ns2⟩ := q
    by_cases h : k2 = k
    · subst h
      simp only [Subtitles.set, if_true, List.mem_cons] at hp
      rcases hp with hp | hp
      · exact Or.inl hp
      · exact Or.inr (List.mem_cons_of_mem _ hp)
    · simp only [Subtitles.set, if_neg h, List.mem_cons] at hp
      rcases hp with hp | hp
      · exact Or.inr (hp ▸ List.mem_cons_self _ _)
      · rcases ih hp with h1 | h1
        · exact Or.inl h1
        · exact Or.inr (List.mem_cons_of_mem _ h1)

theorem Subtitles.get_subset (s : Subtitles) (k : String) (n : SubtitlesNode)
    (hn : n ∈ Subtitles.get s k) : ∃ ns, (k, ns) ∈ s ∧ n ∈ ns := by
  induction s with
  | nil => simp [Subtitles.get, Subtitles.lookup] at hn
  | cons q rest ih =>
    obtain ⟨k2, ns2⟩ := q
    by_cases h : k2 = k
    · subst h
      simp only [Subtitles.get, Subtitles.lookup, if_true, Option.getD_some] at hn
      exact ⟨ns2, List.mem_cons_self _ _, hn⟩
    · have hn1 : n ∈ Subtitles.get rest k := by
        simpa only [Subtitles.get, Subtitles.lookup, if_neg h] using hn
      obtain ⟨ns, hmem, hin⟩ := ih hn1
      exact ⟨ns, List.mem_cons_of_mem _ hmem, hin⟩

/-- A property of the nodes of the whole table, keyed by bucket, is kept by the
append loop when the appended nodes have it. -/
theorem appendLoop_nodes (Q : String → SubtitlesNode → Prop) (mk : String → SubtitlesNode)
    (code : String) (exts : List String) (s : Subtitles)
    (hs : ∀ k ns, (k, ns) ∈ s → ∀ n ∈ ns, Q k n)
    (hmk : ∀ ext ∈ exts, Q code (mk ext)) :
    ∀ k ns,
      (k, ns) ∈ exts.foldl
        (fun m ext => Subtitles.set m code (Subtitles.get m code ++ [mk ext])) s →
      ∀ n ∈ ns, Q k n := by
  induction exts generalizing s with
  | nil => exact hs
  | cons e es ih =>
    rw [List.foldl_cons]
    apply ih
    · intro k ns hmem n hn
      rcases Subtitles.mem_set _ _ _ _ hmem with h | h
      · obtain ⟨hk, hns⟩ := Prod.mk.inj h
        subst hk
        rw [hns] at hn
        rcases List.mem_append.1 hn with h1 | h1
        · obtain ⟨ns1, hmem1, hin1⟩ := Subtitles.get_subset _ _ _ h1
          exact hs _ ns1 hmem1 n hin1
        · rw [List.mem_singleton.1 h1]
          exact hmk e (List.mem_cons_self _ _)
      · exact hs k ns h n hn
    · intro ext hext
      exact hmk ext (List.mem_cons_of_mem _ hext)

/-- A property that the nodes built by both loops of `parseSubtitles` have holds
for every node of the table it stores. -/
theorem parseSubtitles_nodes (Q : String → SubtitlesNode → Prop) (v : Video)
    (prData : PlayerResponseData) (first : CaptionTrack) (rest : List CaptionTrack)
    (htracks : prData.Captions.CaptionTracks = first :: rest)
    (hcap : ∀ k, ∀ ext ∈ subtitleExts,
      Q k { Ext := ext, Url := first.BaseUrl ++ "&fmt=" ++ ext })
    (htr : ∀ k, ∀ ext ∈ subtitleExts,
      Q k { Ext := ext, Url := first.BaseUrl ++ "&fmt=" ++ ext ++ "&tlang=" ++ k })
    (table : Subtitles) (htable : (parseSubtitles v prData).1.Subtitles = some table) :
    ∀ k ns, (k, ns) ∈ table → ∀ n ∈ ns, Q k n := by
  have hloop1 : ∀ (tracks : List CaptionTrack) (s : Subtitles),
      (∀ k ns, (k, ns) ∈ s → ∀ n ∈ ns, Q k n) →
      ∀ k ns, (k, ns) ∈ tracks.foldl (captionTrackNodes first.BaseUrl) s → ∀ n ∈ ns, Q k n := by
    intro tracks
    induction tracks with
    | nil => exact fun s hs => hs
    | cons t ts ih =>
      intro s hs
      rw [List.foldl_cons]
      apply ih
      unfold captionTrackNodes
      exact appendLoop_nodes Q
        (fun ext => { Ext := ext, Url := first.BaseUrl ++ "&fmt=" ++ ext }) _ _ s hs
        (hcap t.LanguageCode)
  have hloop2 : ∀ (ls : List TranslationLanguage) (s : Subtitles),
      (∀ k ns, (k, ns) ∈ s → ∀ n ∈ ns, Q k n) →
      ∀ k ns, (k, ns) ∈ ls.foldl (translationNodes first.BaseUrl) s → ∀ n ∈ ns, Q k n := by
    intro ls
    induction ls with
    | nil => exact fun s hs => hs
    | cons l ls ih =>
      intro s hs
      rw [List.foldl_cons]
      apply ih
      unfold translationNodes
      split_ifs
      · exact hs
      · exact appendLoop_nodes Q
          (fun ext => { Ext := ext,
                        Url := first.BaseUrl ++ "&fmt=" ++ ext ++ "&tlang=" ++ l.LanguageCode })
          _ _ s hs (htr l.LanguageCode)
  have hnil : ∀ k ns, (k, ns) ∈ ([] : Subtitles) → ∀ n ∈ ns, Q k n :=
    fun k ns h => absurd h (List.not_mem_nil _)
  rw [parseSubtitles_subtitles_cons v prData first rest htracks] at htable
  have ht := Option.some.inj htable
  subst ht
  split_ifs
  · exact hloop1 _ _ hnil
  · exact hloop2 _ _ (hloop1 _ _ hnil)

theorem string_eq_empty_of_length (b : String) (h : b.length = 0) : b = "" :=
  String.ext (List.length_eq_zero.1 h)

/-- C13, as stated, fails: a caption track whose base URL is empty gives nodes
whose Url is the bare parameter suffix, `&fmt=srv1` to `&fmt=vtt`. -/
theorem parseSubtitles_node_urls_counterexample :
    ((parseSubtitles {}
        { Captions := { CaptionTracks := [{ BaseUrl := "", LanguageCode := "en" }],
                        TranslationLanguages := [{ LanguageCode := "fr" }] } }).1.subtitlesAt
        "en").map (fun n => n.Url) =
      ["&fmt=srv1", "&fmt=srv2", "&fmt=srv3", "&fmt=ttml", "&fmt=vtt"] := by
  decide

/-- C13, amended: for every non-empty caption track list with first base URL `b`
and every translation language list, every SubtitlesNode in the table built by
`parseSubtitles` has its Ext among srv1, srv2, srv3, ttml, vtt and its Url equal
to `b + "&fmt=" + Ext` (a caption-track node) or to
`b + "&fmt=" + Ext + "&tlang=" + key` (a translation node under `key`); when `b`
is not empty, no node's Url is the bare parameter suffix `"&fmt=" + Ext`. -/
theorem parseSubtitles_node_urls (v : Video) (prData : PlayerResponseData)
    (first : CaptionTrack) (rest : List CaptionTrack)
    (htracks : prData.Captions.CaptionTracks = first :: rest) :
    ∀ k ns, (k, ns) ∈ (parseSubtitles v prData).1.subtitleBindings → ∀ n ∈ ns,
      n.Ext ∈ subtitleExts ∧
      (n.Url = first.BaseUrl ++ "&fmt=" ++ n.Ext ∨
        n.Url = first.BaseUrl ++ "&fmt=" ++ n.Ext ++ "&tlang=" ++ k) ∧
      (first.BaseUrl ≠ "" → n.Url ≠ "&fmt=" ++ n.Ext) := by
  have hsome := parseSubtitles_subtitles_cons v prData first rest htracks
  intro k ns hmem n hn
  have hmem1 : (k, ns) ∈ (if first.BaseUrl = "" then
          (first :: rest).foldl (captionTrackNodes first.BaseUrl) []
        else
          prData.Captions.TranslationLanguages.foldl (translationNodes first.BaseUrl)
            ((first :: rest).foldl (captionTrackNodes first.BaseUrl) [])) := by
    unfold Video.subtitleBindings at hmem
    rw [hsome] at hmem
    exact hmem
  have hform := parseSubtitles_nodes
    (fun k n => n.Ext ∈ subtitleExts ∧
      (n.Url = first.BaseUrl ++ "&fmt=" ++ n.Ext ∨
        n.Url = first.BaseUrl ++ "&fmt=" ++ n.Ext ++ "&tlang=" ++ k))
    v prData first rest htracks
    (fun _ ext hext => ⟨hext, Or.inl rfl⟩) (fun _ ext hext => ⟨hext, Or.inr rfl⟩)
    _ hsome k ns hmem1 n hn
  refine ⟨hform.1, hform.2, ?_⟩
  intro hb heq
  apply hb
  apply string_eq_empty_of_length
  have hlen := congrArg String.length heq
  rcases hform.2 with h | h
  · rw [h] at hlen
    simp only [String.length_append] at hlen
    omega
  · rw [h] at hlen
    simp only [String.length_append] at hlen
    omega

/-- Witness of C13, amended: the track `en` with base URL `https://x/caption`
and the translation language `fr`; the first node under `fr`. -/
theorem parseSubtitles_node_urls_witness :
    ("fr", [{ Ext := "srv1", Url := "https://x/caption&fmt=srv1&tlang=fr" },
            { Ext := "srv2", Url := "https://x/caption&fmt=srv2&tlang=fr" },
            { Ext := "srv3", Url := "https://x/caption&fmt=srv3&tlang=fr" },
            { Ext := "ttml", Url := "https://x/caption&fmt=ttml&tlang=fr" },
            { Ext := "vtt", Url := "https://x/caption&fmt=vtt&tlang=fr" }]) ∈
        (parseSubtitles {}
          { Captions := { CaptionTracks :=
                            [{ BaseUrl := "https://x/caption", LanguageCode := "en" }],
                          TranslationLanguages := [{ LanguageCode := "fr" }] } }).1.subtitleBindings ∧
      ("srv1" ∈ subtitleExts ∧
        ("https://x/caption&fmt=srv1&tlang=fr" = "https://x/caption" ++ "&fmt=" ++ "srv1" ∨
          "https://x/caption&fmt=srv1&tlang=fr" =
            "https://x/caption" ++ "&fmt=" ++ "srv1" ++ "&tlang=" ++ "fr") ∧
        ("https://x/caption" ≠ "" → "https://x/caption&fmt=srv1&tlang=fr" ≠ "&fmt=" ++ "srv1")) :=
  ⟨by decide,
   parseSubtitles_node_urls {}
    { Captions := { CaptionTracks := [{ BaseUrl := "https://x/caption", LanguageCode := "en" }],
                    TranslationLanguages := [{ LanguageCode := "fr" }] } }
    { BaseUrl := "https://x/caption", LanguageCode := "en" } [] rfl
    "fr"
    [{ Ext := "srv1", Url := "https://x/caption&fmt=srv1&tlang=fr" },
     { Ext := "srv2", Url := "https://x/caption&fmt=srv2&tlang=fr" },
     { Ext := "srv3", Url := "https://x/caption&fmt=srv3&tlang=fr" },
     { Ext := "ttml", Url := "https://x/caption&fmt=ttml&tlang=fr" },
     { Ext := "vtt", Url := "https://x/caption&fmt=vtt&tlang=fr" }] (by decide)
    { Ext := "srv1", Url := "https://x/caption&fmt=srv1&tlang=fr" } (by decide)⟩

/-- C18 fails on the code: `parseSubtitles` builds each node from `Ext` and `Url`
only, so the five nodes stored under `en` carry the empty `LanguageCode`, not
`en`; the same holds for the translated nodes under `fr`. -/
theorem parseSubtitles_language_code_not_set :
    ((parseSubtitles {}
        { Captions := { CaptionTracks :=
                          [{ BaseUrl := "https://x/caption", LanguageCode := "en" }],
                        TranslationLanguages := [{ LanguageCode := "fr" }] } }).1.subtitlesAt
        "en").map (fun n => n.LanguageCode) = ["", "", "", "", ""] ∧
      ((parseSubtitles {}
        { Captions := { CaptionTracks :=
                          [{ BaseUrl := "https://x/caption", LanguageCode := "en" }],
                        TranslationLanguages := [{ LanguageCode := "fr" }] } }).1.subtitlesAt
        "fr").map (fun n => n.LanguageCode) = ["", "", "", "", ""] := by
  decide

/-! ## The Video after an extraction -/

/-- The method `parseSubtitles` overwrites `Subtitles` with a table that depends
on the response only, and nothing else. -/
theorem parseSubtitles_eq (v : Video) (prData : PlayerResponseData) :
    parseSubtitles v prData =
      ({ v with Subtitles := (parseSubtitles {} prData).1.Subtitles }, none) := by
  unfold parseSubtitles
  cases prData.Captions.CaptionTracks with
  | nil => rfl
  | cons first rest =>
    simp only
    split_ifs <;> rfl

/-- The Video and the error after an extraction with no formats. -/
theorem extract_eq_of_formats_nil (v : Video) (prData : PlayerResponseData)
    (hnil : prData.StreamingData.Formats ++ prData.StreamingData.AdaptiveFormats = []) :
    extractDataFromPlayerResponse v prData =
      some ({ v with
          Title := prData.VideoDetails.Title
          Description := prData.VideoDetails.ShortDescription
          Author := prData.VideoDetails.Author
          Thumbnails := prData.VideoDetails.Thumbnails
          Duration :=
            if strconvAtoi prData.Microformat.LengthSeconds > 0 then
              wrapInt64 (strconvAtoi prData.Microformat.LengthSeconds * timeSecond)
            else v.Duration
          PublishDate :=
            if prData.Microformat.PublishDate ≠ "" then timeParse prData.Microformat.PublishDate
            else v.PublishDate
          Formats := [] },
        some (Error.errorString "no formats found in the server's answer")) := by
  have hlen : (prData.StreamingData.Formats ++ prData.StreamingData.AdaptiveFormats).length = 0 :=
    List.length_eq_zero.2 hnil
  unfold extractDataFromPlayerResponse
  simp only [if_pos hlen]
  rw [hnil]

/-- The Video after an extraction with at least one format. -/
theorem extract_eq_of_formats_ne_nil (v : Video) (prData : PlayerResponseData)
    (hne : prData.StreamingData.Formats ++ prData.StreamingData.AdaptiveFormats ≠ []) :
    extractDataFromPlayerResponse v prData =
      some ({ v with
          Title := prData.VideoDetails.Title
          Description := prData.VideoDetails.ShortDescription
          Author := prData.VideoDetails.Author
          Thumbnails := prData.VideoDetails.Thumbnails
          Duration :=
            if strconvAtoi prData.Microformat.LengthSeconds > 0 then
              wrapInt64 (strconvAtoi prData.Microformat.LengthSeconds * timeSecond)
            else v.Duration
          PublishDate :=
            if prData.Microformat.PublishDate ≠ "" then timeParse prData.Microformat.PublishDate
            else v.PublishDate
          Formats := insertAll (fun a b => decide (a.Bitrate > b.Bitrate))
            (prData.StreamingData.Formats ++ prData.StreamingData.AdaptiveFormats)
          HLSManifestURL := prData.StreamingData.HlsManifestURL
          DASHManifestURL := prData.StreamingData.DashManifestURL
          Subtitles := (parseSubtitles {} prData).1.Subtitles },
        none) := by
  have hlen : ¬ (prData.StreamingData.Formats ++ prData.StreamingData.AdaptiveFormats).length = 0 :=
    fun h => hne (List.length_eq_zero.1 h)
  unfold extractDataFromPlayerResponse
  simp only [if_neg hlen]
  simp only [SortBitrateDesc_eq_indexLess, sortSliceStable_eq]
  rw [parseSubtitles_eq]

/-- C15, as stated, fails: on a response with a title and no formats the
extractor returns the no-formats error after it has written the title into the
fresh Video. -/
theorem extractDataFromPlayerResponse_error_video_counterexample :
    extractDataFromPlayerResponse {}
        { VideoDetails := { Title := "t", Author := "a" },
          Microformat := { LengthSeconds := "42" } } =
        some ({ Title := "t", Author := "a", Duration := 42000000000 },
          some (Error.errorString "no formats found in the server's answer")) ∧
      ({ Title := "t", Author := "a", Duration := 42000000000 } : Video) ≠ {} := by
  decide

/-- C15, amended: whenever `extractDataFromPlayerResponse` returns an error, the
error is the no-formats failure and the Video is the one it was called on with
Title, Description, Author and Thumbnails overwritten from the response,
Duration overwritten when lengthSeconds parses to a positive count, PublishDate
overwritten when publishDate is not empty, and Formats set to the empty list;
ID, Subtitles and the two manifest URLs are as they were before the call. -/
theorem extractDataFromPlayerResponse_error_video (v : Video) (prData : PlayerResponseData)
    (v1 : Video) (err : Error)
    (herr : extractDataFromPlayerResponse v prData = some (v1, some err)) :
    err = Error.errorString "no formats found in the server's answer" ∧
      v1 = { v with
        Title := prData.VideoDetails.Title
        Description := prData.VideoDetails.ShortDescription
        Author := prData.VideoDetails.Author
        Thumbnails := prData.VideoDetails.Thumbnails
        Duration :=
          if strconvAtoi prData.Microformat.LengthSeconds > 0 then
            wrapInt64 (strconvAtoi prData.Microformat.LengthSeconds * timeSecond)
          else v.Duration
        PublishDate :=
          if prData.Microformat.PublishDate ≠ "" then timeParse prData.Microformat.PublishDate
          else v.PublishDate
        Formats := [] } ∧
      v1.ID = v.ID ∧ v1.Subtitles = v.Subtitles ∧
      v1.DASHManifestURL = v.DASHManifestURL ∧ v1.HLSManifestURL = v.HLSManifestURL := by
  by_cases hnil : prData.StreamingData.Formats ++ prData.StreamingData.AdaptiveFormats = []
  · rw [extract_eq_of_formats_nil v prData hnil] at herr
    have hpair := Option.some.inj herr
    have hv := (Prod.mk.inj hpair).1
    have he := Option.some.inj (Prod.mk.inj hpair).2
    subst hv
    exact ⟨he.symm, rfl, rfl, rfl, rfl, rfl⟩
  · rw [extract_eq_of_formats_ne_nil v prData hnil] at herr
    have hpair := Option.some.inj herr
    exact absurd (Prod.mk.inj hpair).2 (by simp)

/-- Witness of C15, amended: a Video with an ID, a manifest URL and a stale
format, and a response with a title and no formats. -/
theorem extractDataFromPlayerResponse_error_video_witness :
    extractDataFromPlayerResponse
        { ID := "x", Title := "old", HLSManifestURL := "h", Formats := [{ ItagNo := 18 }] }
        { VideoDetails := { Title := "t" } } =
        some ({ ID := "x", Title := "t", HLSManifestURL := "h", Formats := [] },
          some (Error.errorString "no formats found in the server's answer")) ∧
      (Error.errorString "no formats found in the server's answer" =
          Error.errorString "no formats found in the server's answer" ∧
        ({ ID := "x", Title := "t", HLSManifestURL := "h", Formats := [] } : Video).ID = "x") :=
  ⟨by decide,
   (extractDataFromPlayerResponse_error_video
      { ID := "x", Title := "old", HLSManifestURL := "h", Formats := [{ ItagNo := 18 }] }
      { VideoDetails := { Title := "t" } }
      { ID := "x", Title := "t", HLSManifestURL := "h", Formats := [] }
      (Error.errorString "no formats found in the server's answer") (by decide)).1,
   (extractDataFromPlayerResponse_error_video
      { ID := "x", Title := "old", HLSManifestURL := "h", Formats := [{ ItagNo := 18 }] }
      { VideoDetails := { Title := "t" } }
      { ID := "x", Title := "t", HLSManifestURL := "h", Formats := [] }
      (Error.errorString "no formats found in the server's answer") (by decide)).2.2.1⟩

/-- A second extraction with a response of the same contents, run on the Video
the first one produced, produces that Video again. -/
theorem extract_twice_same_contents (v : Video) (prData : PlayerResponseData)
    (hne : prData.StreamingData.Formats ++ prData.StreamingData.AdaptiveFormats ≠ []) :
    ∃ v1 : Video,
      extractDataFromPlayerResponse v prData = some (v1, none) ∧
      extractDataFromPlayerResponse v1 prData = some (v1, none) := by
  refine ⟨_, extract_eq_of_formats_ne_nil v prData hne, ?_⟩
  rw [extract_eq_of_formats_ne_nil _ prData hne]
  simp only [Option.some.injEq, Prod.mk.injEq, and_true]
  congr 1
  · split_ifs <;> rfl
  · split_ifs <;> rfl

/-! ## Extraction twice, with the backing array of the response -/

theorem appendFormats_elems (s : FormatSlice) (xs : FormatList) :
    (appendFormats s xs).1.elems = s.elems ++ xs := by
  unfold appendFormats
  split_ifs <;> rfl

/-- With at least one format, the extractor with the shared array returns the
Video of `extractDataFromPlayerResponse` without error; it leaves the sorted
formats in the caller's array when `append` had room there, and the response
untouched when it had none. -/
theorem extractShared_of_formats_ne_nil (v : Video) (prData : PlayerResponseData)
    (spare : FormatList)
    (hne : prData.StreamingData.Formats ++ prData.StreamingData.AdaptiveFormats ≠ []) :
    ∃ v1 : Video,
      extractDataFromPlayerResponse v prData = some (v1, none) ∧
      extractDataFromPlayerResponseShared v prData spare =
        some { video := v1
               err := none
               response :=
                 if prData.StreamingData.AdaptiveFormats.length ≤ spare.length then
                   { prData with StreamingData := { prData.StreamingData with
                       Formats := v1.Formats.take prData.StreamingData.Formats.length } }
                 else prData
               spare :=
                 if prData.StreamingData.AdaptiveFormats.length ≤ spare.length then
                   v1.Formats.drop prData.StreamingData.Formats.length ++
                     spare.drop prData.StreamingData.AdaptiveFormats.length
                 else spare } := by
  have hlen : ¬ (prData.StreamingData.Formats ++ prData.StreamingData.AdaptiveFormats).length = 0 :=
    fun h => hne (List.length_eq_zero.1 h)
  refine ⟨_, extract_eq_of_formats_ne_nil v prData hne, ?_⟩
  unfold extractDataFromPlayerResponseShared
  simp only [appendFormats_elems, if_neg hlen]
  simp only [SortBitrateDesc_eq_indexLess, sortSliceStable_eq]
  rw [parseSubtitles_eq]
  unfold appendFormats
  by_cases hroom : prData.StreamingData.AdaptiveFormats.length ≤ spare.length
  · simp only [if_pos hroom, if_true]
  · simp only [if_neg hroom, Bool.false_eq_true, if_false]

/-- With no format, the extractor with the shared array returns the Video and the
error of `extractDataFromPlayerResponse` and writes nothing into the response. -/
theorem extractShared_of_formats_nil (v : Video) (prData : PlayerResponseData)
    (spare : FormatList)
    (hnil : prData.StreamingData.Formats ++ prData.StreamingData.AdaptiveFormats = []) :
    ∃ (v1 : Video) (e : Error),
      extractDataFromPlayerResponse v prData = some (v1, some e) ∧
      extractDataFromPlayerResponseShared v prData spare =
        some { video := v1, err := some e, response := prData, spare := spare } := by
  have hlen : (prData.StreamingData.Formats ++ prData.StreamingData.AdaptiveFormats).length = 0 :=
    List.length_eq_zero.2 hnil
  refine ⟨_, _, extract_eq_of_formats_nil v prData hnil, ?_⟩
  unfold extractDataFromPlayerResponseShared
  simp only [appendFormats_elems, if_pos hlen]
  rw [hnil]

/-- One call: the Video and the error of the extractor with the shared array are
those of `extractDataFromPlayerResponse`, whatever the spare slots hold. -/
theorem extractShared_video_err (v : Video) (prData : PlayerResponseData) (spare : FormatList) :
    (extractDataFromPlayerResponseShared v prData spare).map (fun o => (o.video, o.err)) =
      extractDataFromPlayerResponse v prData := by
  by_cases hnil : prData.StreamingData.Formats ++ prData.StreamingData.AdaptiveFormats = []
  · obtain ⟨v1, e, h1, h2⟩ := extractShared_of_formats_nil v prData spare hnil
    rw [h1, h2]
    rfl
  · obtain ⟨v1, h1, h2⟩ := extractShared_of_formats_ne_nil v prData spare hnil
    rw [h1, h2]
    rfl

/-- Inserting the elements of a list that is already in non-increasing key order
puts each one on top: the sort returns such a list as it is. -/
theorem insertFold_of_pairwise_desc {α : Type} (key : α → Int) (l acc : List α)
    (hl : l.Pairwise (fun a b => key a ≥ key b))
    (hacc : ∀ y ∈ acc, ∀ x ∈ l, key y ≥ key x) :
    l.foldl (fun acc y => insertRev (fun a b => decide (key a > key b)) y acc) acc =
      l.reverse ++ acc := by
  induction l generalizing acc with
  | nil => rfl
  | cons x xs ih =>
    rw [List.pairwise_cons] at hl
    have hins : insertRev (fun a b => decide (key a > key b)) x acc = x :: acc := by
      cases acc with
      | nil => rfl
      | cons y ys =>
        have hyx := hacc y (List.mem_cons_self _ _) x (List.mem_cons_self _ _)
        have hnot : ¬ key x > key y := not_lt.2 hyx
        simp [insertRev, hnot]
    rw [List.foldl_cons, hins, ih _ hl.2]
    · simp
    · intro y hy z hz
      rcases List.mem_cons.1 hy with h | h
      · rw [h]
        exact hl.1 z hz
      · exact hacc y h z (List.mem_cons_of_mem _ hz)

theorem insertAll_of_pairwise_desc {α : Type} (key : α → Int) (l : List α)
    (hl : l.Pairwise (fun a b => key a ≥ key b)) :
    insertAll (fun a b => decide (key a > key b)) l = l := by
  unfold insertAll
  rw [insertFold_of_pairwise_desc key l [] hl (fun y hy => absurd hy (List.not_mem_nil _))]
  simp

/-- Sorting twice is sorting once. -/
theorem insertAll_insertAll_desc {α : Type} (key : α → Int) (l : List α) :
    insertAll (fun a b => decide (key a > key b))
        (insertAll (fun a b => decide (key a > key b)) l) =
      insertAll (fun a b => decide (key a > key b)) l :=
  insertAll_of_pairwise_desc key _ (insertAll_pairwise_desc key l)

/-- Without adaptive formats, a second extraction on the Video of the first, with
the response whose formats are the sorted ones the first run left in the
caller's array, produces that Video again. -/
theorem extract_twice_sorted_in_place (v : Video) (prData : PlayerResponseData)
    (hadaptive : prData.StreamingData.AdaptiveFormats = [])
    (hne : prData.StreamingData.Formats ++ prData.StreamingData.AdaptiveFormats ≠ []) :
    ∃ v1 : Video,
      extractDataFromPlayerResponse v prData = some (v1, none) ∧
      extractDataFromPlayerResponse v1
        { prData with StreamingData := { prData.StreamingData with
            Formats := v1.Formats.take prData.StreamingData.Formats.length } } =
        some (v1, none) := by
  have hsorted : (insertAll (fun a b : Format => decide (a.Bitrate > b.Bitrate))
      (prData.StreamingData.Formats ++ prData.StreamingData.AdaptiveFormats)).take
        prData.StreamingData.Formats.length =
      insertAll (fun a b : Format => decide (a.Bitrate > b.Bitrate))
        (prData.StreamingData.Formats ++ prData.StreamingData.AdaptiveFormats) := by
    apply List.take_of_length_le
    rw [(insertAll_perm _ _).length_eq, hadaptive, List.append_nil]
  have hne2 : (insertAll (fun a b : Format => decide (a.Bitrate > b.Bitrate))
      (prData.StreamingData.Formats ++ prData.StreamingData.AdaptiveFormats)).take
        prData.StreamingData.Formats.length ++ prData.StreamingData.AdaptiveFormats ≠ [] := by
    intro hnil
    have h1 := (List.append_eq_nil.1 hnil).1
    rw [hsorted] at h1
    have hperm := insertAll_perm (fun a b : Format => decide (a.Bitrate > b.Bitrate))
      (prData.StreamingData.Formats ++ prData.StreamingData.AdaptiveFormats)
    rw [h1] at hperm
    exact hne (List.Perm.nil_eq hperm).symm
  refine ⟨_, extract_eq_of_formats_ne_nil v prData hne, ?_⟩
  rw [extract_eq_of_formats_ne_nil _ _ hne2]
  simp only [Option.some.injEq, Prod.mk.injEq, and_true]
  have hformats : insertAll (fun a b : Format => decide (a.Bitrate > b.Bitrate))
      ((insertAll (fun a b : Format => decide (a.Bitrate > b.Bitrate))
        (prData.StreamingData.Formats ++ prData.StreamingData.AdaptiveFormats)).take
          prData.StreamingData.Formats.length ++ prData.StreamingData.AdaptiveFormats) =
      insertAll (fun a b : Format => decide (a.Bitrate > b.Bitrate))
        (prData.StreamingData.Formats ++ prData.StreamingData.AdaptiveFormats) := by
    rw [hsorted]
    have happ : insertAll (fun a b : Format => decide (a.Bitrate > b.Bitrate))
        (prData.StreamingData.Formats ++ prData.StreamingData.AdaptiveFormats) ++
          prData.StreamingData.AdaptiveFormats =
        insertAll (fun a b : Format => decide (a.Bitrate > b.Bitrate))
          (prData.StreamingData.Formats ++ prData.StreamingData.AdaptiveFormats) := by
      rw [hadaptive, List.append_nil]
    rw [happ]
    exact insertAll_insertAll_desc (fun f : Format => f.Bitrate) _
  rw [hformats]
  congr 1
  · split_ifs <;> rfl
  · split_ifs <;> rfl

/-- C19, as stated, fails on the code. The response has the three progressive
formats of bitrates 3, 2, 1 in an array with one spare slot (length 3, capacity
4, as a decoded list of three has) and one adaptive format of bitrate 9. The
first run returns the bitrates 9, 3, 2, 1; `append` has put the adaptive format
into the spare slot and the sort has permuted the caller's array, so the very
same response now reads 9, 3, 2, and the second run returns 9, 9, 3, 2. -/
theorem extractDataFromPlayerResponse_idempotent_counterexample :
    (extractDataFromPlayerResponseShared {}
        { StreamingData :=
            { Formats := [{ ItagNo := 1, Bitrate := 3 }, { ItagNo := 2, Bitrate := 2 },
                          { ItagNo := 3, Bitrate := 1 }],
              AdaptiveFormats := [{ ItagNo := 4, Bitrate := 9 }] } }
        [{}]).map
        (fun o => (o.video.Formats.map (fun f => f.Bitrate), o.err,
          o.response.StreamingData.Formats.map (fun f => f.Bitrate))) =
        some ([9, 3, 2, 1], none, [9, 3, 2]) ∧
      ((extractDataFromPlayerResponseShared {}
        { StreamingData :=
            { Formats := [{ ItagNo := 1, Bitrate := 3 }, { ItagNo := 2, Bitrate := 2 },
                          { ItagNo := 3, Bitrate := 1 }],
              AdaptiveFormats := [{ ItagNo := 4, Bitrate := 9 }] } }
        [{}]).bind
        (fun o => extractDataFromPlayerResponseShared o.video o.response o.spare)).map
        (fun o => (o.video.Formats.map (fun f => f.Bitrate), o.err)) =
        some ([9, 9, 3, 2], none) := by
  decide

/-- C19, amended: extraction is idempotent on the contents of the response. For
every response with at least one format, the first run returns a Video without
error; a second run on that Video, given a response with the contents the first
response had before the first run (one decoded again from the same raw input,
say), returns an equal Video, whatever the spare capacity of its formats slice;
two runs on fresh Videos with responses of equal contents return equal Videos
and errors; and with the very same response value the second run returns an
equal Video when the formats slice has no room for the adaptive formats
(`cap(formats) - len(formats) < len(adaptiveFormats)`), for the first run then
leaves the response as it was, and when there are no adaptive formats, for the
first run then only sorts the caller's formats in place. -/
theorem extractDataFromPlayerResponseShared_idempotent (v : Video)
    (prData : PlayerResponseData) (spare : FormatList)
    (hne : prData.StreamingData.Formats ++ prData.StreamingData.AdaptiveFormats ≠ []) :
    ∃ o1 : ExtractOutcome,
      extractDataFromPlayerResponseShared v prData spare = some o1 ∧ o1.err = none ∧
      (∀ spare2 : FormatList, ∃ o2 : ExtractOutcome,
        extractDataFromPlayerResponseShared o1.video prData spare2 = some o2 ∧
        o2.err = none ∧ o2.video = o1.video) ∧
      (∀ spare1 spare2 : FormatList,
        (extractDataFromPlayerResponseShared {} prData spare1).map (fun o => (o.video, o.err)) =
          (extractDataFromPlayerResponseShared {} prData spare2).map
            (fun o => (o.video, o.err))) ∧
      (spare.length < prData.StreamingData.AdaptiveFormats.length →
        o1.response = prData ∧ o1.spare = spare ∧
        ∃ o2 : ExtractOutcome,
          extractDataFromPlayerResponseShared o1.video o1.response o1.spare = some o2 ∧
          o2.err = none ∧ o2.video = o1.video) ∧
      (prData.StreamingData.AdaptiveFormats = [] →
        ∃ o2 : ExtractOutcome,
          extractDataFromPlayerResponseShared o1.video o1.response o1.spare = some o2 ∧
          o2.err = none ∧ o2.video = o1.video) := by
  obtain ⟨v1, hval, hshared⟩ := extractShared_of_formats_ne_nil v prData spare hne
  have hsecond : ∀ spare2 : FormatList, ∃ o2 : ExtractOutcome,
      extractDataFromPlayerResponseShared v1 prData spare2 = some o2 ∧
      o2.err = none ∧ o2.video = v1 := by
    intro spare2
    obtain ⟨w, hw1, hw2⟩ := extract_twice_same_contents v prData hne
    rw [hval] at hw1
    have hw : v1 = w := (Prod.mk.inj (Option.some.inj hw1)).1
    obtain ⟨v2, hval2, hshared2⟩ := extractShared_of_formats_ne_nil v1 prData spare2 hne
    rw [hw, hw2] at hval2
    have hv2 : w = v2 := (Prod.mk.inj (Option.some.inj hval2)).1
    exact ⟨_, hshared2, rfl, by rw [hw, hv2]⟩
  refine ⟨_, hshared, rfl, hsecond, ?_, ?_, ?_⟩
  · intro spare1 spare2
    rw [extractShared_video_err, extractShared_video_err]
  · intro hroom
    have hno : ¬ prData.StreamingData.AdaptiveFormats.length ≤ spare.length := by omega
    refine ⟨?_, ?_, ?_⟩
    · show (if prData.StreamingData.AdaptiveFormats.length ≤ spare.length then _ else prData) =
        prData
      rw [if_neg hno]
    · show (if prData.StreamingData.AdaptiveFormats.length ≤ spare.length then _ else spare) =
        spare
      rw [if_neg hno]
    · show ∃ o2 : ExtractOutcome,
        extractDataFromPlayerResponseShared v1
          (if prData.StreamingData.AdaptiveFormats.length ≤ spare.length then _ else prData)
          (if prData.StreamingData.AdaptiveFormats.length ≤ spare.length then _ else spare) =
          some o2 ∧ o2.err = none ∧ o2.video = v1
      rw [if_neg hno, if_neg hno]
      exact hsecond spare
  · intro hadaptive
    have hroom : prData.StreamingData.AdaptiveFormats.length ≤ spare.length := by
      rw [hadaptive]
      exact Nat.zero_le _
    obtain ⟨w, hw1, hw2⟩ := extract_twice_sorted_in_place v prData hadaptive hne
    rw [hval] at hw1
    have hw : v1 = w := (Prod.mk.inj (Option.some.inj hw1)).1
    rw [← hw] at hw2
    have hne2 : v1.Formats.take prData.StreamingData.Formats.length ++
        prData.StreamingData.AdaptiveFormats ≠ [] := by
      intro hnil
      obtain ⟨w1, e, he, _⟩ := extractShared_of_formats_nil v1
        { prData with StreamingData := { prData.StreamingData with
            Formats := v1.Formats.take prData.StreamingData.Formats.length } } [] hnil
      rw [hw2] at he
      exact absurd (Prod.mk.inj (Option.some.inj he)).2 (by simp)
    show ∃ o2 : ExtractOutcome,
      extractDataFromPlayerResponseShared v1
        (if prData.StreamingData.AdaptiveFormats.length ≤ spare.length then
          { prData with StreamingData := { prData.StreamingData with
              Formats := v1.Formats.take prData.StreamingData.Formats.length } }
        else prData)
        (if prData.StreamingData.AdaptiveFormats.length ≤ spare.length then _ else spare) =
        some o2 ∧ o2.err = none ∧ o2.video = v1
    rw [if_pos hroom, if_pos hroom]
    obtain ⟨v2, hval2, hshared2⟩ := extractShared_of_formats_ne_nil v1
      { prData with StreamingData := { prData.StreamingData with
          Formats := v1.Formats.take prData.StreamingData.Formats.length } }
      (v1.Formats.drop prData.StreamingData.Formats.length ++
        spare.drop prData.StreamingData.AdaptiveFormats.length) hne2
    rw [hw2] at hval2
    have hv2 : v1 = v2 := (Prod.mk.inj (Option.some.inj hval2)).1
    exact ⟨_, hshared2, rfl, hv2.symm⟩

/-- Witness of C19, amended: the response of the counterexample in an array
without a spare slot (length 3, capacity 3): the first run leaves it as it was
and the second run, with the same response, returns the same Video. And a
response with the progressive bitrates 1, 3, 2, a spare slot and no adaptive
formats: the first run sorts the caller's formats and the second run returns
the same Video. -/
theorem extractDataFromPlayerResponseShared_idempotent_witness :
    (∃ o1 : ExtractOutcome,
      extractDataFromPlayerResponseShared {}
        { StreamingData :=
            { Formats := [{ ItagNo := 1, Bitrate := 3 }, { ItagNo := 2, Bitrate := 2 },
                          { ItagNo := 3, Bitrate := 1 }],
              AdaptiveFormats := [{ ItagNo := 4, Bitrate := 9 }] } }
        [] = some o1 ∧
      o1.err = none ∧
      o1.response =
        { StreamingData :=
            { Formats := [{ ItagNo := 1, Bitrate := 3 }, { ItagNo := 2, Bitrate := 2 },
                          { ItagNo := 3, Bitrate := 1 }],
              AdaptiveFormats := [{ ItagNo := 4, Bitrate := 9 }] } } ∧
      ∃ o2 : ExtractOutcome,
        extractDataFromPlayerResponseShared o1.video o1.response o1.spare = some o2 ∧
        o2.err = none ∧ o2.video = o1.video) ∧
      (∃ o1 : ExtractOutcome,
        extractDataFromPlayerResponseShared {}
          { StreamingData :=
              { Formats := [{ ItagNo := 1, Bitrate := 1 }, { ItagNo := 2, Bitrate := 3 },
                            { ItagNo := 3, Bitrate := 2 }] } }
          [{}] = some o1 ∧
        o1.err = none ∧
        ∃ o2 : ExtractOutcome,
          extractDataFromPlayerResponseShared o1.video o1.response o1.spare = some o2 ∧
          o2.err = none ∧ o2.video = o1.video) :=
  ⟨(extractDataFromPlayerResponseShared_idempotent {}
      { StreamingData :=
          { Formats := [{ ItagNo := 1, Bitrate := 3 }, { ItagNo := 2, Bitrate := 2 },
                        { ItagNo := 3, Bitrate := 1 }],
            AdaptiveFormats := [{ ItagNo := 4, Bitrate := 9 }] } }
      [] (by decide)).elim
      (fun o1 h => ⟨o1, h.1, h.2.1, (h.2.2.2.2.1 (by decide)).1,
        (h.2.2.2.2.1 (by decide)).2.2⟩),
   (extractDataFromPlayerResponseShared_idempotent {}
      { StreamingData :=
          { Formats := [{ ItagNo := 1, Bitrate := 1 }, { ItagNo := 2, Bitrate := 3 },
                        { ItagNo := 3, Bitrate := 2 }] } }
      [{}] (by decide)).elim
      (fun o1 h => ⟨o1, h.1, h.2.1, h.2.2.2.2.2 rfl⟩)⟩

/-! ## The ascending comparator -/

/-- The comparator `SortBitrateAsc` compares two elements of `Formats` by "smaller
bitrate". -/
theorem SortBitrateAsc_eq_indexLess (w : Video) (i j : Nat) :
    SortBitrateAsc w i j = indexLess (fun a b => decide (a.Bitrate < b.Bitrate)) w.Formats i j := by
  unfold SortBitrateAsc indexLess
  cases w.Formats[i]? <;> cases w.Formats[j]? <;> rfl

/-- Sorting by "smaller key" is sorting by "greater negated key". -/
theorem insertAll_asc_eq {α : Type} (key : α → Int) (x : List α) :
    insertAll (fun a b => decide (key a < key b)) x =
      insertAll (fun a b => decide ((fun c => -key c) a > (fun c => -key c) b)) x := by
  have h : (fun a b => decide (key a < key b)) =
      (fun a b => decide ((fun c => -key c) a > (fun c => -key c) b)) := by
    funext a b
    simp
  rw [h]

/-- Under "smaller key" the sort returns the keys in non-decreasing order. -/
theorem insertAll_pairwise_asc {α : Type} (key : α → Int) (x : List α) :
    (insertAll (fun a b => decide (key a < key b)) x).Pairwise (fun a b => key a ≤ key b) := by
  rw [insertAll_asc_eq]
  refine (insertAll_pairwise_desc (fun c => -key c) x).imp ?_
  intro a b h
  simpa using h

/-- Under "smaller key" the sort is stable. -/
theorem insertAll_filter_key_asc {α : Type} (key : α → Int) (k : Int) (x : List α) :
    (insertAll (fun a b => decide (key a < key b)) x).filter (fun a => key a = k) =
      x.filter (fun a => key a = k) := by
  have h : (fun a => decide (key a = k)) = (fun a => decide ((fun c => -key c) a = -k)) := by
    funext a
    simp
  rw [insertAll_asc_eq, h]
  exact insertAll_filter_key (fun c => -key c) (-k) x

/-- C20: for every Video and all in-range indices `i` and `j`, `SortBitrateAsc`
holds exactly when `Formats[i].Bitrate < Formats[j].Bitrate` and equals
`SortBitrateDesc` with the indices exchanged; both comparators are irreflexive
and transitive, and they only read `Formats` (they return a truth value and no
Video); stable-sorting `Formats` with `SortBitrateAsc` returns a permutation with
non-decreasing bitrates in which the formats of one bitrate keep their order. -/
theorem SortBitrateAsc_strict_order_and_stable_sort (v : Video) :
    (∀ (i j : Nat) (fi fj : Format), v.Formats[i]? = some fi → v.Formats[j]? = some fj →
        SortBitrateAsc v i j = some (decide (fi.Bitrate < fj.Bitrate)) ∧
        SortBitrateAsc v i j = SortBitrateDesc v j i) ∧
      (∀ (i : Nat) (fi : Format), v.Formats[i]? = some fi →
        SortBitrateAsc v i i = some false ∧ SortBitrateDesc v i i = some false) ∧
      (∀ i j k : Nat, SortBitrateAsc v i j = some true → SortBitrateAsc v j k = some true →
        SortBitrateAsc v i k = some true) ∧
      (∀ i j k : Nat, SortBitrateDesc v i j = some true → SortBitrateDesc v j k = some true →
        SortBitrateDesc v i k = some true) ∧
      (∃ sorted : List Format,
        sortSliceStable v.Formats (fun fs i j => SortBitrateAsc { v with Formats := fs } i j) =
          some sorted ∧
        sorted.Perm v.Formats ∧
        sorted.Pairwise (fun a b => a.Bitrate ≤ b.Bitrate) ∧
        ∀ k : Int, sorted.filter (fun f => f.Bitrate = k) =
          v.Formats.filter (fun f => f.Bitrate = k)) := by
  refine ⟨?_, ?_, ?_, ?_, ?_⟩
  · intro i j fi fj hi hj
    unfold SortBitrateAsc SortBitrateDesc
    rw [hi, hj]
    simp
  · intro i fi hi
    unfold SortBitrateAsc SortBitrateDesc
    rw [hi]
    simp
  · intro i j k hij hjk
    unfold SortBitrateAsc at *
    cases hi : v.Formats[i]? with
    | none => rw [hi] at hij; simp at hij
    | some fi =>
      cases hj : v.Formats[j]? with
      | none => rw [hi, hj] at hij; simp at hij
      | some fj =>
        cases hk : v.Formats[k]? with
        | none => rw [hj, hk] at hjk; simp at hjk
        | some fk =>
          rw [hi, hj] at hij
          rw [hj, hk] at hjk
          simp only [Option.some.injEq, decide_eq_true_eq] at hij hjk ⊢
          exact lt_trans hij hjk
  · intro i j k hij hjk
    unfold SortBitrateDesc at *
    cases hi : v.Formats[i]? with
    | none => rw [hi] at hij; simp at hij
    | some fi =>
      cases hj : v.Formats[j]? with
      | none => rw [hi, hj] at hij; simp at hij
      | some fj =>
        cases hk : v.Formats[k]? with
        | none => rw [hj, hk] at hjk; simp at hjk
        | some fk =>
          rw [hi, hj] at hij
          rw [hj, hk] at hjk
          simp only [Option.some.injEq, decide_eq_true_eq] at hij hjk ⊢
          exact lt_trans hjk hij
  · refine ⟨insertAll (fun a b => decide (a.Bitrate < b.Bitrate)) v.Formats, ?_, ?_, ?_, ?_⟩
    · simp only [SortBitrateAsc_eq_indexLess, sortSliceStable_eq]
    · exact insertAll_perm _ _
    · exact insertAll_pairwise_asc (fun f : Format => f.Bitrate) _
    · intro k
      exact insertAll_filter_key_asc (fun f : Format => f.Bitrate) k _

/-- Witness of C20: a catalogue with the bitrates 7, 5, 7 and the itags 1, 2, 3;
sorted ascending it has the itags 2, 1, 3. -/
theorem SortBitrateAsc_strict_order_and_stable_sort_witness :
    (SortBitrateAsc
        { Formats := [{ ItagNo := 1, Bitrate := 7 }, { ItagNo := 2, Bitrate := 5 },
                      { ItagNo := 3, Bitrate := 7 }] } 1 0 = some (decide ((5 : Int) < 7)) ∧
      SortBitrateAsc
        { Formats := [{ ItagNo := 1, Bitrate := 7 }, { ItagNo := 2, Bitrate := 5 },
                      { ItagNo := 3, Bitrate := 7 }] } 1 0 =
        SortBitrateDesc
          { Formats := [{ ItagNo := 1, Bitrate := 7 }, { ItagNo := 2, Bitrate := 5 },
                        { ItagNo := 3, Bitrate := 7 }] } 0 1) ∧
      (sortSliceStable
          [{ ItagNo := 1, Bitrate := 7 }, { ItagNo := 2, Bitrate := 5 },
           { ItagNo := 3, Bitrate := 7 }]
          (fun fs i j => SortBitrateAsc { Formats := fs } i j)).map
        (fun l => l.map (fun f => f.ItagNo)) = some [2, 1, 3] :=
  ⟨(SortBitrateAsc_strict_order_and_stable_sort
      { Formats := [{ ItagNo := 1, Bitrate := 7 }, { ItagNo := 2, Bitrate := 5 },
                    { ItagNo := 3, Bitrate := 7 }] }).1 1 0
      { ItagNo := 2, Bitrate := 5 } { ItagNo := 1, Bitrate := 7 } rfl rfl,
   by decide⟩

/-! ## The value of `strconv.Atoi` -/

theorem digit_le_nine (c : Char) (h : c.isDigit = true) : c.toNat - 48 ≤ 9 := by
  unfold Char.isDigit at h
  simp only [Bool.and_eq_true, decide_eq_true_eq] at h
  have h2 : c.toNat ≤ 57 := h.2
  omega

theorem foldDigits_ge (ds : List Char) (acc : Nat) :
    acc ≤ ds.foldl (fun n c => n * 10 + (c.toNat - 48)) acc := by
  induction ds generalizing acc with
  | nil => exact Nat.le_refl _
  | cons c cs ih =>
    rw [List.foldl_cons]
    refine le_trans ?_ (ih _)
    omega

theorem foldDigits_lt (ds : List Char) (acc : Nat) (hd : ∀ c ∈ ds, c.isDigit = true) :
    ds.foldl (fun n c => n * 10 + (c.toNat - 48)) acc < (acc + 1) * 10 ^ ds.length := by
  induction ds generalizing acc with
  | nil => simp
  | cons c cs ih =>
    rw [List.foldl_cons, List.length_cons]
    have h9 := digit_le_nine c (hd c (List.mem_cons_self _ _))
    refine lt_of_lt_of_le (ih _ (fun x hx => hd x (List.mem_cons_of_mem _ hx))) ?_
    have hle : acc * 10 + (c.toNat - 48) + 1 ≤ (acc + 1) * 10 := by omega
    calc (acc * 10 + (c.toNat - 48) + 1) * 10 ^ cs.length
        ≤ ((acc + 1) * 10) * 10 ^ cs.length := Nat.mul_le_mul_right _ hle
      _ = (acc + 1) * 10 ^ (cs.length + 1) := by rw [Nat.pow_succ]; ring

/-- The loop of `ParseUint` reads a run of digits without a range error when
their value fits 64 bits. -/
theorem parseUintLoop_digits (ds tail : List Char) (acc : Nat)
    (hd : ∀ c ∈ ds, c.isDigit = true)
    (hmax : ds.foldl (fun n c => n * 10 + (c.toNat - 48)) acc ≤ 2 ^ 64 - 1) :
    parseUintLoop (ds ++ tail) acc =
      parseUintLoop tail (ds.foldl (fun n c => n * 10 + (c.toNat - 48)) acc) := by
  induction ds generalizing acc with
  | nil => rfl
  | cons c cs ih =>
    rw [List.foldl_cons] at hmax
    have hstep := foldDigits_ge cs (acc * 10 + (c.toNat - 48))
    have h1 : ¬ acc ≥ (2 ^ 64 - 1) / 10 + 1 := by omega
    have h2 : ¬ acc * 10 + (c.toNat - 48) > 2 ^ 64 - 1 := by omega
    rw [List.cons_append, parseUintLoop, if_pos (hd c (List.mem_cons_self _ _)), if_neg h1,
      if_neg h2, List.foldl_cons]
    exact ih _ (fun x hx => hd x (List.mem_cons_of_mem _ hx)) hmax

/-- The fast loop of `Atoi` reads a run of digits. -/
theorem atoiFastLoop_digits (ds tail : List Char) (acc : Nat)
    (hd : ∀ c ∈ ds, c.isDigit = true) :
    atoiFastLoop (ds ++ tail) (acc : Int) =
      atoiFastLoop tail ((ds.foldl (fun n c => n * 10 + (c.toNat - 48)) acc : Nat) : Int) := by
  induction ds generalizing acc with
  | nil => rfl
  | cons c cs ih =>
    rw [List.cons_append, atoiFastLoop, if_pos (hd c (List.mem_cons_self _ _)), List.foldl_cons]
    have hcast : (acc : Int) * 10 + ((c.toNat - 48 : Nat) : Int) =
        ((acc * 10 + (c.toNat - 48) : Nat) : Int) := by push_cast; rfl
    rw [hcast]
    exact ih _ (fun x hx => hd x (List.mem_cons_of_mem _ hx))

theorem atoiFastLoop_nonneg (l : List Char) (acc n : Int) (hacc : 0 ≤ acc)
    (h : atoiFastLoop l acc = some n) : 0 ≤ n := by
  induction l generalizing acc with
  | nil =>
    simp only [atoiFastLoop, Option.some.injEq] at h
    rw [← h]
    exact hacc
  | cons c cs ih =>
    rw [atoiFastLoop] at h
    split_ifs at h
    exact ih _ (by positivity) h

theorem stripSign_cons (c : Char) (cs : List Char) :
    stripSign (c :: cs) = if c = '+' ∨ c = '-' then cs else c :: cs := rfl

/-- Both paths of `Atoi` on a non-empty string, told with `stripSign`. -/
theorem strconvAtoi_cons (s : String) (c : Char) (cs : List Char) (hs : s.data = c :: cs) :
    strconvAtoi s =
      if 0 < s.utf8ByteSize ∧ s.utf8ByteSize < 19 then
        if (stripSign (c :: cs)).length < 1 then 0
        else
          match atoiFastLoop (stripSign (c :: cs)) 0 with
          | none => 0
          | some n => if c = '-' then -n else n
      else
        match parseUint (stripSign (c :: cs)) with
        | none => 0
        | some (un, _) =>
          if !decide (c = '-') && decide (un ≥ 2 ^ 63) then 2 ^ 63 - 1
          else if decide (c = '-') && decide (un > 2 ^ 63) then -(2 ^ 63)
          else if decide (c = '-') then -(un : Int) else (un : Int) := by
  unfold strconvAtoi
  rw [hs]
  have hor : (c = '-' ∨ c = '+') = (c = '+' ∨ c = '-') := propext or_comm
  simp only [parseInt, stripSign_cons, hor]

/-- A string that is only a sign, or empty, is a syntax error: `Atoi` gives 0. -/
theorem strconvAtoi_of_no_digits (s : String) (h : stripSign s.data = []) :
    strconvAtoi s = 0 := by
  cases hs : s.data with
  | nil =>
    unfold strconvAtoi
    rw [hs]
    simp only [parseInt]
    split_ifs <;> rfl
  | cons c cs =>
    rw [hs] at h
    rw [strconvAtoi_cons s c cs hs, h]
    simp [parseUint]

/-- Digits, with or without a leading `+`, of a value below `2^63`: `Atoi` gives
the value. -/
theorem strconvAtoi_of_digits (s : String) (ds : List Char)
    (hsign : s.data.head? ≠ some '-') (hbody : stripSign s.data = ds) (hne : ds ≠ [])
    (hd : ∀ c ∈ ds, c.isDigit = true) (hval : digitsValue ds < 2 ^ 63) :
    strconvAtoi s = (digitsValue ds : Int) := by
  cases hs : s.data with
  | nil =>
    rw [hs] at hbody
    exact absurd hbody.symm hne
  | cons c cs =>
    rw [hs] at hbody hsign
    have hc : ¬ c = '-' := fun h => hsign (by rw [h]; rfl)
    have hlen : ¬ ds.length < 1 := by
      have := List.length_pos.2 hne
      omega
    have hfast : atoiFastLoop ds 0 = some (digitsValue ds : Int) := by
      have h := atoiFastLoop_digits ds [] 0 hd
      rw [List.append_nil] at h
      exact h
    have hslow : parseUint ds = some (digitsValue ds, false) := by
      have h := parseUintLoop_digits ds [] 0 hd (by unfold digitsValue at hval; omega)
      rw [List.append_nil] at h
      unfold parseUint
      cases ds with
      | nil => exact absurd rfl hne
      | cons d ds1 => exact h
    have hlt : ¬ digitsValue ds ≥ 2 ^ 63 := by omega
    rw [strconvAtoi_cons s c cs hs, hbody, hfast, hslow]
    simp only [if_neg hlen, if_neg hc, hc, hlt, decide_False, Bool.not_false, Bool.true_and,
      Bool.false_and, Bool.false_eq_true, if_false, ite_self]

/-- A string with a leading `-`: `Atoi` gives a value that is not positive. -/
theorem strconvAtoi_of_minus (s : String) (hsign : s.data.head? = some '-') :
    strconvAtoi s ≤ 0 := by
  cases hs : s.data with
  | nil =>
    rw [hs] at hsign
    exact absurd hsign (by simp)
  | cons c cs =>
    rw [hs] at hsign
    have hc : c = '-' := by simpa using hsign
    rw [strconvAtoi_cons s c cs hs]
    by_cases hfp : 0 < s.utf8ByteSize ∧ s.utf8ByteSize < 19
    · rw [if_pos hfp]
      by_cases hl : (stripSign (c :: cs)).length < 1
      · rw [if_pos hl]
      · rw [if_neg hl]
        cases hf : atoiFastLoop (stripSign (c :: cs)) 0 with
        | none => exact le_refl _
        | some n =>
          have hn := atoiFastLoop_nonneg _ 0 n (le_refl _) hf
          simp only [if_pos hc]
          exact neg_nonpos.2 hn
    · rw [if_neg hfp]
      cases hp : parseUint (stripSign (c :: cs)) with
      | none => exact le_refl _
      | some p =>
        obtain ⟨un, r⟩ := p
        simp only [hc, decide_True, Bool.not_true, Bool.false_and, Bool.true_and,
          Bool.false_eq_true, if_false, decide_eq_true_eq, if_true]
        split_ifs
        · norm_num
        · exact neg_nonpos.2 (Int.ofNat_nonneg un)

/-- A character that is not a digit, after at most 19 digits, is a syntax error:
`Atoi` gives 0. -/
theorem strconvAtoi_of_non_digit (s : String) (ds : List Char) (c : Char) (rest : List Char)
    (hbody : stripSign s.data = ds ++ c :: rest)
    (hd : ∀ x ∈ ds, x.isDigit = true) (hlen : ds.length ≤ 19) (hc : c.isDigit = false) :
    strconvAtoi s = 0 := by
  cases hs : s.data with
  | nil =>
    rw [hs] at hbody
    exact absurd hbody.symm (by simp [stripSign])
  | cons c0 cs0 =>
    rw [hs] at hbody
    have hnd : ¬ c.isDigit = true := by rw [hc]; decide
    have hfast : atoiFastLoop (ds ++ c :: rest) 0 = none := by
      have h := atoiFastLoop_digits ds (c :: rest) 0 hd
      rw [show ((0 : Nat) : Int) = 0 from rfl] at h
      rw [h, atoiFastLoop, if_neg hnd]
    have hbound : ds.foldl (fun n x => n * 10 + (x.toNat - 48)) 0 ≤ 2 ^ 64 - 1 := by
      have h := foldDigits_lt ds 0 hd
      have hpow : 10 ^ ds.length ≤ 10 ^ 19 := Nat.pow_le_pow_right (by decide) hlen
      omega
    have hslow : parseUint (ds ++ c :: rest) = none := by
      have h := parseUintLoop_digits ds (c :: rest) 0 hd hbound
      have hl : parseUintLoop (ds ++ c :: rest) 0 = none := by
        rw [h, parseUintLoop, if_neg hnd]
      unfold parseUint
      cases hds : ds ++ c :: rest with
      | nil => rfl
      | cons d l =>
        rw [hds] at hl
        exact hl
    rw [strconvAtoi_cons s c0 cs0 hs, hbody, hfast, hslow]
    split_ifs <;> rfl

/-! ## The duration -/

theorem wrapInt64_seconds (n : Nat) (hn : n ≤ 9223372036) :
    wrapInt64 ((n : Int) * timeSecond) = (n : Int) * 1000000000 := by
  unfold wrapInt64 timeSecond
  omega

/-- The extractor always returns; the error depends on the two format lists
only, and the Duration on lengthSeconds and the Duration before the call. -/
theorem extract_duration (v : Video) (prData : PlayerResponseData) :
    ∃ (v1 : Video) (e : Option Error),
      extractDataFromPlayerResponse v prData = some (v1, e) ∧
      (e = none ↔
        prData.StreamingData.Formats ++ prData.StreamingData.AdaptiveFormats ≠ []) ∧
      v1.Duration =
        if strconvAtoi prData.Microformat.LengthSeconds > 0 then
          wrapInt64 (strconvAtoi prData.Microformat.LengthSeconds * timeSecond)
        else v.Duration := by
  by_cases hnil : prData.StreamingData.Formats ++ prData.StreamingData.AdaptiveFormats = []
  · exact ⟨_, _, extract_eq_of_formats_nil v prData hnil,
      ⟨fun h => absurd h (by simp), fun h => absurd hnil h⟩, rfl⟩
  · exact ⟨_, _, extract_eq_of_formats_ne_nil v prData hnil, ⟨fun _ => hnil, fun _ => rfl⟩, rfl⟩

/-- C16, as stated, fails. The decimal integer `9223372037` is positive, but
`9223372037 * 10^9` does not fit the 64-bit Duration, which wraps to a negative
count of nanoseconds. The string `99999999999999999999x` is not numeric, but
`Atoi` reports the range error at the twentieth digit, before it reaches the
`x`, and returns the largest `int`; the Duration is then minus one second, not
zero. -/
theorem extractDataFromPlayerResponse_duration_counterexample :
    (extractDataFromPlayerResponse {}
        { Microformat := { LengthSeconds := "9223372037" },
          StreamingData := { Formats := [{ ItagNo := 18, Bitrate := 5 }] } }).map
        (fun r => (r.1.Duration, r.2)) = some (-9223372036709551616, none) ∧
      (-9223372036709551616 : Int) ≠ 9223372037 * 1000000000 ∧
      (extractDataFromPlayerResponse {}
        { Microformat := { LengthSeconds := "99999999999999999999x" },
          StreamingData := { Formats := [{ ItagNo := 18, Bitrate := 5 }] } }).map
        (fun r => (r.1.Duration, r.2)) = some (-1000000000, none) := by
  decide

/-- C16, amended: for every lengthSeconds string, extraction into a fresh Video
returns, and fails exactly when both format lists are empty, whatever the string
is. When the string is a run of decimal digits, with or without a leading `+`,
of value `n` at most 9223372036, Duration is `n * 10^9` nanoseconds (zero for
`n = 0`). Duration stays zero when the string begins with `-`, when it is empty
or only a sign, and when its first character that is not a digit (after an
optional sign) comes after at most 19 digits. -/
theorem extractDataFromPlayerResponse_duration (prData : PlayerResponseData) :
    ∃ (v1 : Video) (e : Option Error),
      extractDataFromPlayerResponse {} prData = some (v1, e) ∧
      (e = none ↔
        prData.StreamingData.Formats ++ prData.StreamingData.AdaptiveFormats ≠ []) ∧
      (prData.Microformat.LengthSeconds.data.head? ≠ some '-' →
        stripSign prData.Microformat.LengthSeconds.data ≠ [] →
        (∀ c ∈ stripSign prData.Microformat.LengthSeconds.data, c.isDigit = true) →
        digitsValue (stripSign prData.Microformat.LengthSeconds.data) ≤ 9223372036 →
        v1.Duration =
          (digitsValue (stripSign prData.Microformat.LengthSeconds.data) : Int) * 1000000000) ∧
      (prData.Microformat.LengthSeconds.data.head? = some '-' → v1.Duration = 0) ∧
      (stripSign prData.Microformat.LengthSeconds.data = [] → v1.Duration = 0) ∧
      (∀ (ds : List Char) (c : Char) (rest : List Char),
        stripSign prData.Microformat.LengthSeconds.data = ds ++ c :: rest →
        (∀ x ∈ ds, x.isDigit = true) → ds.length ≤ 19 → c.isDigit = false →
        v1.Duration = 0) := by
  obtain ⟨v1, e, hrun, herr, hdur⟩ := extract_duration {} prData
  have hzero : strconvAtoi prData.Microformat.LengthSeconds ≤ 0 → v1.Duration = 0 := by
    intro h
    rw [hdur, if_neg (not_lt.2 h)]
  refine ⟨v1, e, hrun, herr, ?_, ?_, ?_, ?_⟩
  · intro hsign hne hd hval
    have hatoi := strconvAtoi_of_digits _ _ hsign rfl hne hd (by omega)
    rw [hdur, hatoi]
    by_cases hpos : (digitsValue (stripSign prData.Microformat.LengthSeconds.data) : Int) > 0
    · rw [if_pos hpos, wrapInt64_seconds _ hval]
    · rw [if_neg hpos]
      have h0 : (digitsValue (stripSign prData.Microformat.LengthSeconds.data) : Int) = 0 := by
        omega
      rw [h0]
      rfl
  · intro hsign
    exact hzero (strconvAtoi_of_minus _ hsign)
  · intro hbody
    exact hzero (le_of_eq (strconvAtoi_of_no_digits _ hbody))
  · intro ds c rest hbody hd hlen hc
    exact hzero (le_of_eq (strconvAtoi_of_non_digit _ ds c rest hbody hd hlen hc))

/-- Witness of C16, amended: `42` and `+7` give 42 and 7 seconds, `0`, `-5`, the
empty string and `12a` leave the Duration at zero. -/
theorem extractDataFromPlayerResponse_duration_witness :
    (∃ (v1 : Video) (e : Option Error),
        extractDataFromPlayerResponse {} { Microformat := { LengthSeconds := "42" } } =
          some (v1, e) ∧ v1.Duration = 42000000000) ∧
      (∃ (v1 : Video) (e : Option Error),
        extractDataFromPlayerResponse {} { Microformat := { LengthSeconds := "+7" } } =
          some (v1, e) ∧ v1.Duration = 7000000000) ∧
      (∃ (v1 : Video) (e : Option Error),
        extractDataFromPlayerResponse {} { Microformat := { LengthSeconds := "0" } } =
          some (v1, e) ∧ v1.Duration = 0) ∧
      (∃ (v1 : Video) (e : Option Error),
        extractDataFromPlayerResponse {} { Microformat := { LengthSeconds := "-5" } } =
          some (v1, e) ∧ v1.Duration = 0) ∧
      (∃ (v1 : Video) (e : Option Error),
        extractDataFromPlayerResponse {} { Microformat := { LengthSeconds := "" } } =
          some (v1, e) ∧ v1.Duration = 0) ∧
      (∃ (v1 : Video) (e : Option Error),
        extractDataFromPlayerResponse {} { Microformat := { LengthSeconds := "12a" } } =
          some (v1, e) ∧ v1.Duration = 0) :=
  ⟨(extractDataFromPlayerResponse_duration { Microformat := { LengthSeconds := "42" } }).elim
      (fun v1 h => h.elim (fun e h => ⟨v1, e, h.1,
        (h.2.2.1 (by decide) (by decide) (by decide) (by decide)).trans (by decide)⟩)),
   (extractDataFromPlayerResponse_duration { Microformat := { LengthSeconds := "+7" } }).elim
      (fun v1 h => h.elim (fun e h => ⟨v1, e, h.1,
        (h.2.2.1 (by decide) (by decide) (by decide) (by decide)).trans (by decide)⟩)),
   (extractDataFromPlayerResponse_duration { Microformat := { LengthSeconds := "0" } }).elim
      (fun v1 h => h.elim (fun e h => ⟨v1, e, h.1,
        (h.2.2.1 (by decide) (by decide) (by decide) (by decide)).trans (by decide)⟩)),
   (extractDataFromPlayerResponse_duration { Microformat := { LengthSeconds := "-5" } }).elim
      (fun v1 h => h.elim (fun e h => ⟨v1, e, h.1, h.2.2.2.1 (by decide)⟩)),
   (extractDataFromPlayerResponse_duration { Microformat := { LengthSeconds := "" } }).elim
      (fun v1 h => h.elim (fun e h => ⟨v1, e, h.1, h.2.2.2.2.1 (by decide)⟩)),
   (extractDataFromPlayerResponse_duration { Microformat := { LengthSeconds := "12a" } }).elim
      (fun v1 h => h.elim (fun e h => ⟨v1, e, h.1,
        h.2.2.2.2.2 ['1', '2'] 'a' [] (by decide) (by decide) (by decide) (by decide)⟩))⟩

end Youtube
